import Mathlib

/-!
# Verification of the token-core BTC-fork address codec and TRON signer

A shallow embedding, over `Nat` and `List`, of `tcx-btc-fork/src/address.rs`
(network registry, address builders, Base58Check/Bech32 codec) and
`tcx-tron/src/transaction.rs` (the TRON transaction signer), together with
proofs of the specified properties.

Bytes are `Nat` values kept below 256; 32-bit machine arithmetic is modelled
with explicit masking (`% 2^32` / `&&& 0xffffffff`).  Rust panics
(`unwrap`, `expect`, `unimplemented!`) are modelled as an explicit
`panicked` result so that "never panics" is a provable statement.
All definitions are executable structural recursions so that concrete
inputs evaluate by `decide`/`rfl`.
-/

/-! ## 32-bit word helpers -/

/-- Addition modulo 2^32. -/
def add32 (x y : Nat) : Nat := (x + y) % 4294967296

/-- Left rotation of a 32-bit word by `n` bits. -/
def rotl32 (n x : Nat) : Nat := ((x <<< n) ||| (x >>> (32 - n))) &&& 0xffffffff

/-- Right rotation of a 32-bit word by `n` bits. -/
def rotr32 (n x : Nat) : Nat := ((x >>> n) ||| (x <<< (32 - n))) &&& 0xffffffff

/-- Bitwise complement within 32 bits. -/
def not32 (x : Nat) : Nat := x ^^^ 0xffffffff

/-- Big-endian bytes of a 32-bit word. -/
def wordBytesBE (w : Nat) : List Nat :=
  [(w >>> 24) % 256, (w >>> 16) % 256, (w >>> 8) % 256, w % 256]

/-- Little-endian bytes of a 32-bit word. -/
def wordBytesLE (w : Nat) : List Nat :=
  [w % 256, (w >>> 8) % 256, (w >>> 16) % 256, (w >>> 24) % 256]

/-- Big-endian bytes of a 64-bit word. -/
def word64BytesBE (n : Nat) : List Nat :=
  [(n >>> 56) % 256, (n >>> 48) % 256, (n >>> 40) % 256, (n >>> 32) % 256,
   (n >>> 24) % 256, (n >>> 16) % 256, (n >>> 8) % 256, n % 256]

/-- Little-endian bytes of a 64-bit word. -/
def word64BytesLE (n : Nat) : List Nat :=
  [n % 256, (n >>> 8) % 256, (n >>> 16) % 256, (n >>> 24) % 256,
   (n >>> 32) % 256, (n >>> 40) % 256, (n >>> 48) % 256, (n >>> 56) % 256]

/-- Group a list into consecutive chunks of `n` elements; the fuel argument
bounds the recursion and is instantiated with the list length. -/
def chunksOf (n : Nat) : Nat → List Nat → List (List Nat)
  | 0, _ => []
  | _, [] => []
  | fuel + 1, xs => xs.take n :: chunksOf n fuel (xs.drop n)

/-- Big-endian 32-bit words from a byte list (groups of 4). -/
def bytesToWordsBE : List Nat → List Nat
  | b0 :: b1 :: b2 :: b3 :: rest =>
      ((b0 <<< 24) ||| (b1 <<< 16) ||| (b2 <<< 8) ||| b3) :: bytesToWordsBE rest
  | _ => []

/-- Little-endian 32-bit words from a byte list (groups of 4). -/
def bytesToWordsLE : List Nat → List Nat
  | b0 :: b1 :: b2 :: b3 :: rest =>
      (b0 ||| (b1 <<< 8) ||| (b2 <<< 16) ||| (b3 <<< 24)) :: bytesToWordsLE rest
  | _ => []

/-! ## SHA-256 (FIPS 180-4), as used by `bitcoin_hashes::sha256` -/

/-- The eight SHA-256 initial hash words. -/
def sha256IV : List Nat :=
  [0x6a09e667, 0xbb67ae85, 0x3c6ef372, 0xa54ff53a,
   0x510e527f, 0x9b05688c, 0x1f83d9ab, 0x5be0cd19]

/-- The 64 SHA-256 round constants. -/
def sha256K : List Nat :=
  [0x428A2F98, 0x71374491, 0xB5C0FBCF, 0xE9B5DBA5, 0x3956C25B, 0x59F111F1,
   0x923F82A4, 0xAB1C5ED5, 0xD807AA98, 0x12835B01, 0x243185BE, 0x550C7DC3,
   0x72BE5D74, 0x80DEB1FE, 0x9BDC06A7, 0xC19BF174, 0xE49B69C1, 0xEFBE4786,
   0x0FC19DC6, 0x240CA1CC, 0x2DE92C6F, 0x4A7484AA, 0x5CB0A9DC, 0x76F988DA,
   0x983E5152, 0xA831C66D, 0xB00327C8, 0xBF597FC7, 0xC6E00BF3, 0xD5A79147,
   0x06CA6351, 0x14292967, 0x27B70A85, 0x2E1B2138, 0x4D2C6DFC, 0x53380D13,
   0x650A7354, 0x766A0ABB, 0x81C2C92E, 0x92722C85, 0xA2BFE8A1, 0xA81A664B,
   0xC24B8B70, 0xC76C51A3, 0xD192E819, 0xD6990624, 0xF40E3585, 0x106AA070,
   0x19A4C116, 0x1E376C08, 0x2748774C, 0x34B0BCB5, 0x391C0CB3, 0x4ED8AA4A,
   0x5B9CCA4F, 0x682E6FF3, 0x748F82EE, 0x78A5636F, 0x84C87814, 0x8CC70208,
   0x90BEFFFA, 0xA4506CEB, 0xBEF9A3F7, 0xC67178F2]

/-- SHA-256 `Ch`. -/
def sha256Ch (x y z : Nat) : Nat := (x &&& y) ^^^ ((not32 x) &&& z)

/-- SHA-256 `Maj`. -/
def sha256Maj (x y z : Nat) : Nat := (x &&& y) ^^^ (x &&& z) ^^^ (y &&& z)

/-- SHA-256 big sigma 0. -/
def bsig0 (x : Nat) : Nat := (rotr32 2 x) ^^^ (rotr32 13 x) ^^^ (rotr32 22 x)

/-- SHA-256 big sigma 1. -/
def bsig1 (x : Nat) : Nat := (rotr32 6 x) ^^^ (rotr32 11 x) ^^^ (rotr32 25 x)

/-- SHA-256 small sigma 0. -/
def ssig0 (x : Nat) : Nat := (rotr32 7 x) ^^^ (rotr32 18 x) ^^^ (x >>> 3)

/-- SHA-256 small sigma 1. -/
def ssig1 (x : Nat) : Nat := (rotr32 17 x) ^^^ (rotr32 19 x) ^^^ (x >>> 10)

/-- Extend the 16 message words; the sliding window holds the last 16 words,
oldest first. -/
def sha256Extend : Nat → List Nat → List Nat
  | 0, _ => []
  | fuel + 1, w =>
    match w with
    | w0 :: w1 :: _ :: _ :: _ :: _ :: _ :: _ :: _ :: w9 :: _ :: _ :: _ :: _ :: w14 :: _ :: [] =>
        let nw := add32 (add32 (ssig1 w14) w9) (add32 (ssig0 w1) w0)
        nw :: sha256Extend fuel (w.tail ++ [nw])
    | _ => []

/-- One SHA-256 round on the eight-word working state. -/
def sha256Round (st : List Nat) (kw : Nat × Nat) : List Nat :=
  match st with
  | [a, b, c, d, e, f, g, h] =>
    let t1 := add32 (add32 (add32 h (bsig1 e)) (add32 (sha256Ch e f g) kw.1)) kw.2
    let t2 := add32 (bsig0 a) (sha256Maj a b c)
    [add32 t1 t2, a, b, c, add32 d t1, e, f, g]
  | other => other

/-- Compress one 64-byte block into the running state. -/
def sha256Compress (st : List Nat) (block : List Nat) : List Nat :=
  let w16 := bytesToWordsBE block
  let ws := w16 ++ sha256Extend 48 w16
  let final := (sha256K.zip ws).foldl sha256Round st
  List.zipWith add32 st final

/-- SHA-256 padding: `0x80`, zeros, then the 64-bit big-endian bit length. -/
def sha256Pad (msg : List Nat) : List Nat :=
  let len := msg.length
  let zeros := (64 - ((len + 9) % 64)) % 64
  msg ++ 0x80 :: (List.replicate zeros 0 ++ word64BytesBE (8 * len))

/-- SHA-256 of a byte list (32-byte digest). -/
def sha256 (msg : List Nat) : List Nat :=
  let padded := sha256Pad msg
  let final := (chunksOf 64 padded.length padded).foldl sha256Compress sha256IV
  (final.map wordBytesBE).flatten

/-! ## RIPEMD-160, as used by `bitcoin_hashes::hash160` -/

/-- RIPEMD-160 initial state. -/
def ripemdIV : List Nat := [0x67452301, 0xefcdab89, 0x98badcfe, 0x10325476, 0xc3d2e1f0]

/-- RIPEMD-160 round function, selected by the step index `j` (0..79). -/
def ripemdF (j x y z : Nat) : Nat :=
  if j < 16 then x ^^^ y ^^^ z
  else if j < 32 then (x &&& y) ||| ((not32 x) &&& z)
  else if j < 48 then (x ||| (not32 y)) ^^^ z
  else if j < 64 then (x &&& z) ||| (y &&& (not32 z))
  else x ^^^ (y ||| (not32 z))

/-- Left-line round constants. -/
def ripemdKL : List Nat := [0, 0x5a827999, 0x6ed9eba1, 0x8f1bbcdc, 0xa953fd4e]

/-- Right-line round constants. -/
def ripemdKR : List Nat := [0x50a28be6, 0x5c4dd124, 0x6d703ef3, 0x7a6d76e9, 0]

/-- Left-line message word order. -/
def ripemdRL : List Nat :=
  [0, 1, 2, 3, 4, 5, 6, 7, 8, 9, 10, 11, 12, 13, 14, 15,
   7, 4, 13, 1, 10, 6, 15, 3, 12, 0, 9, 5, 2, 14, 11, 8,
   3, 10, 14, 4, 9, 15, 8, 1, 2, 7, 0, 6, 13, 11, 5, 12,
   1, 9, 11, 10, 0, 8, 12, 4, 13, 3, 7, 15, 14, 5, 6, 2,
   4, 0, 5, 9, 7, 12, 2, 10, 14, 1, 3, 8, 11, 6, 15, 13]

/-- Right-line message word order. -/
def ripemdRR : List Nat :=
  [5, 14, 7, 0, 9, 2, 11, 4, 13, 6, 15, 8, 1, 10, 3, 12,
   6, 11, 3, 7, 0, 13, 5, 10, 14, 15, 8, 12, 4, 9, 1, 2,
   15, 5, 1, 3, 7, 14, 6, 9, 11, 8, 12, 2, 10, 0, 4, 13,
   8, 6, 4, 1, 3, 11, 15, 0, 5, 12, 2, 13, 9, 7, 10, 14,
   12, 15, 10, 4, 1, 5, 8, 7, 6, 2, 13, 14, 0, 3, 9, 11]

/-- Left-line rotation amounts. -/
def ripemdSL : List Nat :=
  [11, 14, 15, 12, 5, 8, 7, 9, 11, 13, 14, 15, 6, 7, 9, 8,
   7, 6, 8, 13, 11, 9, 7, 15, 7, 12, 15, 9, 11, 7, 13, 12,
   11, 13, 6, 7, 14, 9, 13, 15, 14, 8, 13, 6, 5, 12, 7, 5,
   11, 12, 14, 15, 14, 15, 9, 8, 9, 14, 5, 6, 8, 6, 5, 12,
   9, 15, 5, 11, 6, 8, 13, 12, 5, 12, 13, 14, 11, 8, 5, 6]

/-- Right-line rotation amounts. -/
def ripemdSR : List Nat :=
  [8, 9, 9, 11, 13, 15, 15, 5, 7, 7, 8, 11, 14, 14, 12, 6,
   9, 13, 15, 7, 12, 8, 9, 11, 7, 7, 12, 7, 6, 15, 13, 11,
   9, 7, 15, 11, 8, 6, 6, 14, 12, 13, 5, 14, 13, 13, 7, 5,
   15, 5, 8, 11, 14, 14, 6, 14, 6, 9, 12, 9, 12, 5, 15, 8,
   8, 5, 12, 9, 12, 5, 14, 6, 8, 13, 6, 5, 15, 13, 11, 11]

/-- One step of a RIPEMD-160 line.  `fj` is the round-function index used at
step `j` (`j` itself on the left line, `79 - j` on the right line). -/
def ripemdStep (X : List Nat) (ks rs ss : List Nat) (left : Bool) (st : List Nat) (j : Nat) :
    List Nat :=
  match st with
  | [a, b, c, d, e] =>
    let fj := if left then j else 79 - j
    let r := rs.getD j 0
    let s := ss.getD j 0
    let k := ks.getD (j / 16) 0
    let t := add32 (rotl32 s (add32 (add32 a (ripemdF fj b c d)) (add32 (X.getD r 0) k))) e
    [e, t, b, rotl32 10 c, d]
  | other => other

/-- Run the 80 steps of one RIPEMD-160 line. -/
def ripemdLine (X : List Nat) (ks rs ss : List Nat) (left : Bool) (st : List Nat) : List Nat :=
  (List.range 80).foldl (ripemdStep X ks rs ss left) st

/-- Compress one 64-byte block into the running RIPEMD-160 state. -/
def ripemdCompress (h : List Nat) (block : List Nat) : List Nat :=
  let X := bytesToWordsLE block
  let l := ripemdLine X ripemdKL ripemdRL ripemdSL true h
  let r := ripemdLine X ripemdKR ripemdRR ripemdSR false h
  match h, l, r with
  | [h0, h1, h2, h3, h4], [al, bl, cl, dl, el], [ar, br, cr, dr, er] =>
    [add32 h1 (add32 cl dr), add32 h2 (add32 dl er), add32 h3 (add32 el ar),
     add32 h4 (add32 al br), add32 h0 (add32 bl cr)]
  | h, _, _ => h

/-- RIPEMD-160 padding: like SHA-256 but with a little-endian length field. -/
def ripemdPad (msg : List Nat) : List Nat :=
  let len := msg.length
  let zeros := (64 - ((len + 9) % 64)) % 64
  msg ++ 0x80 :: (List.replicate zeros 0 ++ word64BytesLE (8 * len))

/-- RIPEMD-160 of a byte list (20-byte digest). -/
def ripemd160 (msg : List Nat) : List Nat :=
  let padded := ripemdPad msg
  let final := (chunksOf 64 padded.length padded).foldl ripemdCompress ripemdIV
  (final.map wordBytesLE).flatten

/-- `hash160`: RIPEMD-160 of the SHA-256 digest (`bitcoin_hashes::hash160`). -/
def hash160 (msg : List Nat) : List Nat := ripemd160 (sha256 msg)

/-! ## Positional digit expansion (shared by Base58 and byte serialization)

`bitcoin::util::base58` converts between byte strings and base-58 text by
big-number arithmetic; both directions are the usual base-`b` digit
expansion.  The fuel argument makes the recursion structural; it is
instantiated with the number itself, which always suffices. -/

/-- Big-endian digits of `n` in base `b` (most significant first, empty for 0),
with explicit fuel. -/
def digitsBEAux (b : Nat) : Nat → Nat → List Nat
  | 0, _ => []
  | fuel + 1, n => if n = 0 then [] else digitsBEAux b fuel (n / b) ++ [n % b]

/-- Big-endian digits of `n` in base `b`; most significant first, `[]` for 0. -/
def digitsBE (b n : Nat) : List Nat := digitsBEAux b n n

/-- Value of a big-endian digit list in base `b`. -/
def fromDigitsBE (b : Nat) (ds : List Nat) : Nat := ds.foldl (fun acc d => acc * b + d) 0

/-- Number of leading zero bytes. -/
def leadingZeros : List Nat → Nat
  | [] => 0
  | b :: rest => if b = 0 then leadingZeros rest + 1 else 0

/-- Number of leading `'1'` characters. -/
def leadingOnes : List Char → Nat
  | [] => 0
  | c :: rest => if c = '1' then leadingOnes rest + 1 else 0

/-! ## Base58Check (`bitcoin::util::base58`) -/

/-- Base58Check decode errors (the crate's `base58::Error`, named as in the
specification's error taxonomy). -/
inductive Base58Error where
  | BadByte (c : Char)
  | InvalidChecksum
  | InvalidLength (n : Nat)
  | InvalidVersion (vs : List Nat)
  | TooShort (n : Nat)
deriving DecidableEq

/-- The Base58 alphabet. -/
def b58Alphabet : List Char := "123456789ABCDEFGHJKLMNPQRSTUVWXYZabcdefghijkmnopqrstuvwxyz".data

/-- Character of a base-58 digit. -/
def b58Char (d : Nat) : Char := b58Alphabet.getD d 'x'

/-- Index of a character in a list (first occurrence). -/
def listIdxOf (c : Char) : List Char → Option Nat
  | [] => none
  | x :: rest => if x = c then some 0 else (listIdxOf c rest).map (fun i => i + 1)

/-- Base-58 digit of a character. -/
def b58Value (c : Char) : Option Nat := listIdxOf c b58Alphabet

/-- Map characters to base-58 digits; first invalid character is a `BadByte`. -/
def b58Values : List Char → Except Base58Error (List Nat)
  | [] => .ok []
  | c :: rest =>
    match b58Value c with
    | none => .error (.BadByte c)
    | some v =>
      match b58Values rest with
      | .error e => .error e
      | .ok vs => .ok (v :: vs)

/-- `base58::check_encode_slice` without the checksum: leading zero bytes map
to `'1'`s, the remaining value is written in base 58. -/
def b58EncodeRaw (data : List Nat) : List Char :=
  List.replicate (leadingZeros data) '1' ++ (digitsBE 58 (fromDigitsBE 256 data)).map b58Char

/-- `base58::check_encode_slice`: append the 4-byte double-SHA-256 checksum and
encode. -/
def b58EncodeCheck (data : List Nat) : List Char :=
  b58EncodeRaw (data ++ (sha256 (sha256 data)).take 4)

/-- `base58::from`: decode base-58 text to bytes (leading `'1'`s become zero
bytes). -/
def b58DecodeRaw (s : List Char) : Except Base58Error (List Nat) :=
  match b58Values s with
  | .error e => .error e
  | .ok vs => .ok (List.replicate (leadingOnes s) 0 ++ digitsBE 256 (fromDigitsBE 58 vs))

/-- `base58::from_check`: decode, verify and strip the 4-byte checksum. -/
def b58FromCheck (s : List Char) : Except Base58Error (List Nat) :=
  match b58DecodeRaw s with
  | .error e => .error e
  | .ok d =>
    if d.length < 4 then .error (.TooShort d.length)
    else
      let payload := d.take (d.length - 4)
      let ck := d.drop (d.length - 4)
      if ck = (sha256 (sha256 payload)).take 4 then .ok payload
      else .error .InvalidChecksum

/-! ## Bech32 (the `bech32` crate, BIP-173 variant) -/

/-- Bech32 decode errors. -/
inductive Bech32Error where
  | MissingSeparator
  | InvalidChar (c : Char)
  | InvalidLength
  | InvalidChecksum
  | MixedCase
  | InvalidData (v : Nat)
  | InvalidPadding
deriving DecidableEq

/-- The Bech32 data-part character set. -/
def bech32Charset : List Char := "qpzry9x8gf2tvdw0s3jn54khce6mua7l".data

/-- Character of a 5-bit group. -/
def bech32CharOf (d : Nat) : Char := bech32Charset.getD d 'q'

/-- 5-bit group of a (lowercase) character. -/
def bech32ValOf (c : Char) : Option Nat := listIdxOf c bech32Charset

/-- One generator term of the Bech32 checksum step: `g` if bit `i` of `b` is
set, else 0. -/
def gterm (b i g : Nat) : Nat := if (b >>> i) &&& 1 = 1 then g else 0

/-- One step of the Bech32 `polymod` recurrence. -/
def bech32PolymodStep (chk v : Nat) : Nat :=
  let b := chk >>> 25
  (((chk &&& 0x1ffffff) <<< 5) ^^^ v) ^^^ gterm b 0 0x3b6a57b2 ^^^ gterm b 1 0x26508e6d ^^^
    gterm b 2 0x1ea119fa ^^^ gterm b 3 0x3d4233dd ^^^ gterm b 4 0x2a1462b3

/-- The Bech32 `polymod` checksum accumulator over a list of 5-bit values. -/
def bech32Polymod (vs : List Nat) : Nat := vs.foldl bech32PolymodStep 1

/-- `hrp_expand`: high bits of the hrp, a zero, then the low bits. -/
def bech32HrpExpand (hrp : List Char) : List Nat :=
  hrp.map (fun c => c.toNat >>> 5) ++ [0] ++ hrp.map (fun c => c.toNat &&& 31)

/-- Bech32 checksum verification. -/
def bech32VerifyChecksum (hrp : List Char) (data : List Nat) : Bool :=
  bech32Polymod (bech32HrpExpand hrp ++ data) == 1

/-- Bech32 checksum creation (six 5-bit groups). -/
def bech32CreateChecksum (hrp : List Char) (data : List Nat) : List Nat :=
  let pm := bech32Polymod (bech32HrpExpand hrp ++ data ++ [0, 0, 0, 0, 0, 0]) ^^^ 1
  [(pm >>> 25) &&& 31, (pm >>> 20) &&& 31, (pm >>> 15) &&& 31,
   (pm >>> 10) &&& 31, (pm >>> 5) &&& 31, pm &&& 31]

/-- The text written by `bech32::Bech32Writer`: hrp, the `'1'` separator, data
and checksum in the data character set. -/
def bech32Encode (hrp : List Char) (data : List Nat) : List Char :=
  hrp ++ '1' :: (data ++ bech32CreateChecksum hrp data).map bech32CharOf

/-- Index of the last `'1'` in a character list (`str::rfind`). -/
def rfind1 : List Char → Option Nat
  | [] => none
  | c :: rest =>
    match rfind1 rest with
    | some i => some (i + 1)
    | none => if c = '1' then some 0 else none

/-- ASCII lowercase letter test. -/
def isLowerCh (c : Char) : Bool := 97 ≤ c.toNat && c.toNat ≤ 122

/-- ASCII uppercase letter test. -/
def isUpperCh (c : Char) : Bool := 65 ≤ c.toNat && c.toNat ≤ 90

/-- ASCII digit test. -/
def isDigitCh (c : Char) : Bool := 48 ≤ c.toNat && c.toNat ≤ 57

/-- ASCII lowercasing (the identifiers and encodings involved are ASCII). -/
def lowerCh (c : Char) : Char := if isUpperCh c then Char.ofNat (c.toNat + 32) else c

/-- Validate and lowercase the hrp, tracking whether lowercase/uppercase
letters occur. -/
def bech32CheckHrp : List Char → Bool → Bool → Except Bech32Error (List Char × Bool × Bool)
  | [], hl, hu => .ok ([], hl, hu)
  | c :: rest, hl, hu =>
    if c.toNat < 33 ∨ 126 < c.toNat then .error (.InvalidChar c)
    else
      match bech32CheckHrp rest (hl || isLowerCh c) (hu || isUpperCh c) with
      | .error e => .error e
      | .ok (cs, hl2, hu2) => .ok (lowerCh c :: cs, hl2, hu2)

/-- Validate the data part: alphanumeric, not one of `1`, `b`, `i`, `o`, and in
the Bech32 character set after lowercasing; tracks letter case. -/
def bech32CheckData : List Char → Bool → Bool → Except Bech32Error (List Nat × Bool × Bool)
  | [], hl, hu => .ok ([], hl, hu)
  | c :: rest, hl, hu =>
    if !(isDigitCh c || isLowerCh c || isUpperCh c) then .error (.InvalidChar c)
    else if c = '1' ∨ c = 'b' ∨ c = 'i' ∨ c = 'o' then .error (.InvalidChar c)
    else
      match bech32ValOf (lowerCh c) with
      | none => .error (.InvalidChar c)
      | some v =>
        match bech32CheckData rest (hl || isLowerCh c) (hu || isUpperCh c) with
        | .error e => .error e
        | .ok (vs, hl2, hu2) => .ok (v :: vs, hl2, hu2)

/-- `bech32::decode`: split at the last `'1'`, validate both parts, reject
mixed case, verify and strip the 6-group checksum. -/
def bech32Decode (s : List Char) : Except Bech32Error (List Char × List Nat) :=
  match rfind1 s with
  | none => .error .MissingSeparator
  | some sep =>
    let rawHrp := s.take sep
    let rawData := s.drop (sep + 1)
    if rawHrp.length < 1 ∨ rawData.length < 6 then .error .InvalidLength
    else
      match bech32CheckHrp rawHrp false false with
      | .error e => .error e
      | .ok (hrp, hl, hu) =>
        match bech32CheckData rawData hl hu with
        | .error e => .error e
        | .ok (data, hl2, hu2) =>
          if hl2 && hu2 then .error .MixedCase
          else if bech32VerifyChecksum hrp data then .ok (hrp, data.take (data.length - 6))
          else .error .InvalidChecksum

/-- Emit `outw`-bit groups from the accumulator while at least `to` bits remain;
returns the groups and the remaining bit count.  Fuel is instantiated with the
bit count. -/
def emitLoop (outw mask : Nat) : Nat → Nat → Nat → List Nat × Nat
  | 0, _, bits => ([], bits)
  | fuel + 1, acc, bits =>
    if outw ≤ bits then
      let out := (acc >>> (bits - outw)) &&& mask
      let p := emitLoop outw mask fuel acc (bits - outw)
      (out :: p.1, p.2)
    else ([], bits)

/-- The `convert_bits` loop of the `bech32` crate, with an explicit
accumulator and bit count. -/
def convertBitsAux (fr outw mask : Nat) (pad : Bool) :
    List Nat → Nat → Nat → Except Bech32Error (List Nat)
  | [], acc, bits =>
    if pad then
      if 0 < bits then .ok [(acc <<< (outw - bits)) &&& mask] else .ok []
    else if fr ≤ bits ∨ (acc <<< (outw - bits)) &&& mask ≠ 0 then .error .InvalidPadding
    else .ok []
  | v :: rest, acc, bits =>
    if v >>> fr ≠ 0 then .error (.InvalidData v)
    else
      let acc2 := (acc <<< fr) ||| v
      let p := emitLoop outw mask (bits + fr) acc2 (bits + fr)
      match convertBitsAux fr outw mask pad rest acc2 p.2 with
      | .error e => .error e
      | .ok outs => .ok (p.1 ++ outs)

/-- `bech32::convert_bits`. -/
def convertBits (data : List Nat) (fr outw : Nat) (pad : Bool) : Except Bech32Error (List Nat) :=
  convertBitsAux fr outw ((1 <<< outw) - 1) pad data 0 0

/-- `ToBase32` for byte slices: 8-to-5 bit regrouping with padding (cannot
fail on byte input, mirroring the crate's `expect`). -/
def toBase32 (bs : List Nat) : List Nat := ((convertBits bs 8 5 true).toOption).getD []

/-- `FromBase32` for bytes: 5-to-8 bit regrouping, rejecting bad padding. -/
def fromBase32 (u5s : List Nat) : Except Bech32Error (List Nat) := convertBits u5s 5 8 false

deriving instance DecidableEq for Except

/-! ## The data model of `tcx-btc-fork/src/address.rs` -/

/-- `BtcForkNetwork`: the registry row for one coin.  The version-byte fields
correspond to the source's `p2pkh_prefix` and `p2sh_prefix`, and the
extended-key fields to `xpub_prefix` and `xprv_prefix`. -/
structure BtcForkNetwork where
  coin : String
  hrp : String
  p2pkh_version : Nat
  p2sh_version : Nat
  xpub_version : List Nat
  xprv_version : List Nat
deriving DecidableEq

/-- `str::to_lowercase` restricted to ASCII (all registry identifiers and the
address alphabets are ASCII). -/
def lowerStr (s : String) : String := String.mk (s.data.map lowerCh)

/-- The registry match on the lowercased identifier, written over the
character list (string literals are matched by their characters). -/
def networkOfChars (cs : List Char) : Option BtcForkNetwork :=
  if cs = ['l', 't', 'c'] then
    some ⟨"LTC", "ltc", 0x30, 0x32, [0x04, 0x88, 0xB2, 0x1E], [0x04, 0x88, 0xAD, 0xE4]⟩
  else if cs = ['l', 't', 'c', '-', 't', 'e', 's', 't', 'n', 'e', 't'] then
    some ⟨"LTC-TESTNET", "ltc", 0x6f, 0x3a, [0x04, 0x88, 0xB2, 0x1E], [0x04, 0x88, 0xAD, 0xE4]⟩
  else if cs = ['b', 't', 'c'] ∨ cs = ['b', 'c'] then
    some ⟨"BTC", "bc", 0x0, 0x05, [0x04, 0x88, 0xB2, 0x1E], [0x04, 0x88, 0xAD, 0xE4]⟩
  else if cs = ['b', 't', 'c', '-', 't', 'e', 's', 't', 'n', 'e', 't'] then
    some ⟨"BTC-TESTNET", "bc", 0x6f, 0xc4, [0x04, 0x88, 0xB2, 0x1E], [0x04, 0x88, 0xAD, 0xE4]⟩
  else if cs = ['b', 'i', 't', 'c', 'o', 'i', 'n', 'c', 'a', 's', 'h'] ∨ cs = ['b', 'c', 'h'] then
    some ⟨"BCH", "bitcoincash", 0x0, 0x05, [0x04, 0x88, 0xB2, 0x1E], [0x04, 0x88, 0xAD, 0xE4]⟩
  else none

/-- `network_from_coin`: the static registry, matched case-insensitively. -/
def network_from_coin (coin : String) : Option BtcForkNetwork :=
  networkOfChars (lowerStr coin).data

/-- `bitcoin::util::address::Payload`: what an address encodes. -/
inductive Payload where
  | PubkeyHash (hash : List Nat)
  | ScriptHash (hash : List Nat)
  | WitnessProgram (version : Nat) (program : List Nat)
deriving DecidableEq

/-- `BtcForkAddress`. -/
structure BtcForkAddress where
  network : BtcForkNetwork
  payload : Payload
deriving DecidableEq

/-- A parsed secp256k1 public key, carried as its serialized bytes (what
`Secp256k1PublicKey::to_bytes` returns and the address builders hash). -/
structure PubKey where
  bytes : List Nat
deriving DecidableEq

/-- Errors of the `tcx` crate surfaced by the builders. -/
inductive BuildError where
  | UnsupportedChain
  | InvalidPublicKey
deriving DecidableEq

/-- Result of a Rust function returning `tcx` `Result`, with panics explicit. -/
inductive BuildResult (α : Type) where
  | ok (a : α)
  | err (e : BuildError)
  | panicked
deriving DecidableEq

/-- `BtcForkAddress::p2pkh`: legacy pay-to-pubkey-hash (`bitcoin`'s
`Address::p2pkh` hashes the serialized key). -/
def BtcForkAddress.p2pkh (pub_key : PubKey) (network : BtcForkNetwork) : BtcForkAddress :=
  ⟨network, .PubkeyHash (hash160 pub_key.bytes)⟩

/-- `BtcForkAddress::p2shwpkh`: pay-to-script-hash wrapping the v0 witness
program `OP_0 PUSH20 keyhash` (`bitcoin`'s `Address::p2shwpkh`). -/
def BtcForkAddress.p2shwpkh (pub_key : PubKey) (network : BtcForkNetwork) : BtcForkAddress :=
  ⟨network, .ScriptHash (hash160 (0x00 :: 0x14 :: hash160 pub_key.bytes))⟩

/-- `BtcForkAddress::p2wpkh`: native v0 witness program. -/
def BtcForkAddress.p2wpkh (pub_key : PubKey) (network : BtcForkNetwork) : BtcForkAddress :=
  ⟨network, .WitnessProgram 0 (hash160 pub_key.bytes)⟩

/-- The `Display` implementation: Base58Check with the network version byte
for hash payloads, Bech32 with the network hrp for witness programs. -/
def addrChars (a : BtcForkAddress) : List Char :=
  match a.payload with
  | .PubkeyHash h => b58EncodeCheck (a.network.p2pkh_version :: h)
  | .ScriptHash h => b58EncodeCheck (a.network.p2sh_version :: h)
  | .WitnessProgram v prog => bech32Encode a.network.hrp.data (v :: toBase32 prog)

/-- `to_string` via `Display`. -/
def BtcForkAddress.toText (a : BtcForkAddress) : String := String.mk (addrChars a)

/-- `bech32_network`: the text before the last `'1'`, looked up in the
registry (`None` when there is no separator or no registry match). -/
def bech32_network (bech32 : String) : Option BtcForkNetwork :=
  match rfind1 bech32.data with
  | none => none
  | some sep => network_from_coin (String.mk (bech32.data.take sep))

/-- Decode errors of `FromStr for BtcForkAddress`
(`bitcoin::util::address::Error`). -/
inductive AddressError where
  | Base58 (e : Base58Error)
  | Bech32 (e : Bech32Error)
  | EmptyBech32Payload
  | InvalidWitnessVersion (v : Nat)
  | InvalidWitnessProgramLength (n : Nat)
  | InvalidSegwitV0ProgramLength (n : Nat)
deriving DecidableEq

/-- Result of a Rust function returning `Result<_, BtcAddressError>`, with
panics (`unwrap`/`expect`/`unimplemented!`) explicit. -/
inductive RResult (α : Type) where
  | ok (a : α)
  | err (e : AddressError)
  | panicked
deriving DecidableEq

/-- `_decode_base58`: length pre-check, `base58::from_check`, 21-byte check. -/
def _decode_base58 (addr : List Char) : Except AddressError (List Nat) :=
  if addr.length > 50 then .error (.Base58 (.InvalidLength (addr.length * 11 / 15)))
  else
    match b58FromCheck addr with
    | .error e => .error (.Base58 e)
    | .ok data =>
      if data.length ≠ 21 then .error (.Base58 (.InvalidLength data.length))
      else .ok data

/-- One arm of the version-byte dispatch in `from_str`: the
`network_from_coin(...).expect(...)` and the
`hash160::Hash::from_slice(&data[1..]).unwrap()` both model their panic. -/
def mkBase58Payload (coinId : String) (mk : List Nat → Payload) (hashBytes : List Nat) :
    RResult BtcForkAddress :=
  match network_from_coin coinId with
  | none => .panicked
  | some network =>
    if hashBytes.length = 20 then .ok ⟨network, mk hashBytes⟩ else .panicked

/-- `FromStr for BtcForkAddress`: try Bech32 when the text before the last
separator is a registered hrp, otherwise Base58Check with the version-byte
table. -/
def BtcForkAddress.from_str (s : String) : RResult BtcForkAddress :=
  match bech32_network s with
  | some network =>
    match bech32Decode s.data with
    | .error e => .err (.Bech32 e)
    | .ok (_, payload) =>
      if payload.length = 0 then .err .EmptyBech32Payload
      else
        match payload with
        | [] => .panicked
        | v :: p5 =>
          match fromBase32 p5 with
          | .error e => .err (.Bech32 e)
          | .ok program =>
            if v > 16 then .err (.InvalidWitnessVersion v)
            else if program.length < 2 ∨ program.length > 40 then
              .err (.InvalidWitnessProgramLength program.length)
            else if v = 0 ∧ program.length ≠ 20 ∧ program.length ≠ 32 then
              .err (.InvalidSegwitV0ProgramLength program.length)
            else .ok ⟨network, .WitnessProgram v program⟩
  | none =>
    match _decode_base58 s.data with
    | .error e => .err e
    | .ok data =>
      match data with
      | [] => .panicked
      | v :: hashBytes =>
        if v = 0 then mkBase58Payload "btc" .PubkeyHash hashBytes
        else if v = 5 then mkBase58Payload "btc" .ScriptHash hashBytes
        else if v = 0x30 then mkBase58Payload "ltc" .PubkeyHash hashBytes
        else if v = 0x32 then mkBase58Payload "ltc" .ScriptHash hashBytes
        else if v = 0x3a then mkBase58Payload "ltc-testnet" .ScriptHash hashBytes
        else if v = 111 then mkBase58Payload "btc-testnet" .PubkeyHash hashBytes
        else if v = 196 then mkBase58Payload "btc-testnet" .ScriptHash hashBytes
        else .err (.Base58 (.InvalidVersion [v]))

/-- Outcome of `Address::is_valid`, which returns a plain `bool` in the
source and can therefore only produce a value or a panic. -/
inductive RustBool where
  | value (b : Bool)
  | panicked
deriving DecidableEq

/-- `Address::is_valid for BtcForkAddress` is `unimplemented!()`: it panics on
every input. -/
def BtcForkAddress.is_valid (_address : String) : RustBool := .panicked

/-- `BtcForkAddress::address_like`: parse the reference address and rebuild
the same payload kind for the new key on the same network. -/
def BtcForkAddress.address_like (target_addr : String) (pub_key : PubKey) :
    RResult BtcForkAddress :=
  match BtcForkAddress.from_str target_addr with
  | .panicked => .panicked
  | .err e => .err e
  | .ok target =>
    match target.payload with
    | .PubkeyHash _ => .ok (BtcForkAddress.p2pkh pub_key target.network)
    | .ScriptHash _ => .ok (BtcForkAddress.p2shwpkh pub_key target.network)
    | .WitnessProgram _ _ => .ok (BtcForkAddress.p2wpkh pub_key target.network)

/-! ## secp256k1 public-key parsing (`Secp256k1PublicKey::from_slice`) -/

/-- Modular exponentiation by repeated squaring, with fuel (structural, so
that concrete instances evaluate in the kernel). -/
def powModAux : Nat → Nat → Nat → Nat → Nat
  | 0, _, _, m => 1 % m
  | fuel + 1, b, e, m =>
    if e = 0 then 1 % m
    else
      let h := powModAux fuel ((b * b) % m) (e / 2) m
      if e % 2 = 1 then ((b % m) * h) % m else h

/-- Modular exponentiation (fuel 257 covers every exponent below 2^257). -/
def powMod (b e m : Nat) : Nat := powModAux 257 b e m

/-- The secp256k1 field prime. -/
def secp_p : Nat := 0xfffffffffffffffffffffffffffffffffffffffffffffffffffffffefffffc2f

/-- `Secp256k1PublicKey::from_slice`: accept a 33-byte compressed key whose x
coordinate lies on the curve (the decompression square root must square back)
or a 65-byte uncompressed on-curve point. -/
def secpFromSlice (bs : List Nat) : Option PubKey :=
  if bs.length = 33 ∧ (bs.headD 0 = 2 ∨ bs.headD 0 = 3) then
    let x := fromDigitsBE 256 (bs.drop 1)
    if x < secp_p then
      let t := ((x * x % secp_p) * x + 7) % secp_p
      let y := powMod t ((secp_p + 1) / 4) secp_p
      if (y * y) % secp_p = t then some ⟨bs⟩ else none
    else none
  else if bs.length = 65 ∧ bs.headD 0 = 4 then
    let x := fromDigitsBE 256 ((bs.drop 1).take 32)
    let y := fromDigitsBE 256 (bs.drop 33)
    if x < secp_p ∧ y < secp_p ∧ (y * y) % secp_p = ((x * x % secp_p) * x + 7) % secp_p then
      some ⟨bs⟩
    else none
  else none

/-- `Address::from_public_key for BtcForkAddress`: parse the key, then the
`coin.expect(..)` (a panic when absent), registry lookup, and the
wrapped-witness builder. -/
def BtcForkAddress.from_public_key (public_key : List Nat) (coin : Option String) :
    BuildResult String :=
  match secpFromSlice public_key with
  | none => .err .InvalidPublicKey
  | some pub_key =>
    match coin with
    | none => .panicked
    | some c =>
      match network_from_coin c with
      | none => .err .UnsupportedChain
      | some network => .ok (BtcForkAddress.toText (BtcForkAddress.p2shwpkh pub_key network))

/-! ## The TRON transaction signer (`tcx-tron/src/transaction.rs`) -/

/-- `serde_json::Value`. -/
inductive Json where
  | null
  | bool (b : Bool)
  | num (n : Int)
  | str (s : String)
  | arr (xs : List Json)
  | obj (fields : List (String × Json))

/-- `value[key]` for a string key: the field of an object (or `Null` when
absent), `Null` on any non-object. -/
def jsonIndex (j : Json) (key : String) : Json :=
  match j with
  | .obj fields => (fields.lookup key).getD .null
  | _ => .null

/-- Insert or replace a field of an object field list. -/
def insertField : List (String × Json) → String → Json → List (String × Json)
  | [], k, v => [(k, v)]
  | (k0, v0) :: rest, k, v =>
    if k0 = k then (k0, v) :: rest else (k0, v0) :: insertField rest k v

/-- `as_object_mut().unwrap()` followed by `insert`: `none` models the panic
on a non-object. -/
def jsonInsert (j : Json) (k : String) (v : Json) : Option Json :=
  match j with
  | .obj fields => some (.obj (insertField fields k v))
  | _ => none

/-- Value of an ASCII hex digit. -/
def hexDigitVal (c : Char) : Option Nat :=
  if 48 ≤ c.toNat ∧ c.toNat ≤ 57 then some (c.toNat - 48)
  else if 97 ≤ c.toNat ∧ c.toNat ≤ 102 then some (c.toNat - 87)
  else if 65 ≤ c.toNat ∧ c.toNat ≤ 70 then some (c.toNat - 55)
  else none

/-- `hex::decode` (fails on odd length or a non-hex character). -/
def hexDecodeAux : List Char → Option (List Nat)
  | [] => some []
  | c1 :: c2 :: rest =>
    match hexDigitVal c1, hexDigitVal c2, hexDecodeAux rest with
    | some h, some l, some bs => some ((h * 16 + l) :: bs)
    | _, _, _ => none
  | _ => none

/-- `hex::decode` on a string. -/
def hexDecode (s : String) : Option (List Nat) := hexDecodeAux s.data

/-- The lowercase hex digits. -/
def hexDigits : List Char := "0123456789abcdef".data

/-- `hex::encode`. -/
def hexEncode (bs : List Nat) : String :=
  String.mk (bs.flatMap (fun b => [hexDigits.getD (b / 16) 'x', hexDigits.getD (b % 16) 'x']))

/-- A chain account inside the keystore (only the derivation path is read). -/
structure Account where
  derivation_path : String

/-- A password-unlocked signing pair: `sign_recoverable` on a message hash.
The concrete key subsystem is external to this repository, so it is kept
abstract as a function field. -/
structure KPair where
  sign_recoverable : List Nat → Except Unit (List Nat)

/-- Errors surfaced by the TRON signer. -/
inductive TronError where
  | InvalidPassword
  | Message (s : String)
  | HexError
deriving DecidableEq

/-- Result of the signer, with panics explicit. -/
inductive TronResult (α : Type) where
  | ok (a : α)
  | err (e : TronError)
  | panicked

/-- The keystore as seen by `sign_transaction`: account lookup by chain
symbol and pair derivation by path and password (both external, abstract). -/
structure HdKeystore where
  account : String → Option Account
  get_pair : String → String → Except TronError KPair

/-- `TransactionSigner::sign_transaction for HdKeystore` (TRON): clone the
payload, require a password, hash the hex `raw_data_hex` field, look up the
TRON account, sign recoverably, and insert the hex signature as a one-element
array under `"signature"`. -/
def sign_transaction (keystore : HdKeystore) (tx : Json) (password : Option String) :
    TronResult Json :=
  let raw := tx
  match password with
  | none => .err .InvalidPassword
  | some pwd =>
    match jsonIndex raw "raw_data_hex" with
    | .str hexs =>
      match hexDecode hexs with
      | none => .err .HexError
      | some bytes =>
        let hash := sha256 bytes
        match keystore.account "TRON" with
        | none => .err (.Message "account_not_found")
        | some account =>
          match keystore.get_pair account.derivation_path pwd with
          | .error e => .err e
          | .ok pair =>
            match pair.sign_recoverable hash with
            | .error _ => .err (.Message "can not format error")
            | .ok r =>
              match jsonInsert raw "signature" (.arr [.str (hexEncode r)]) with
              | none => .panicked
              | some signed => .ok signed
    | _ => .panicked

/-! ## Digit-expansion lemmas -/

theorem digitsBEAux_fuel_eq (b : Nat) (hb : 2 ≤ b) :
    ∀ f g n, n ≤ f → n ≤ g → digitsBEAux b f n = digitsBEAux b g n := by
  intro f
  induction f with
  | zero =>
    intro g n hf _
    have : n = 0 := by omega
    subst this
    cases g <;> simp [digitsBEAux]
  | succ f ih =>
    intro g n hf hg
    by_cases hn : n = 0
    · subst hn; cases g <;> simp [digitsBEAux]
    · obtain ⟨g, rfl⟩ : ∃ k, g = k + 1 := ⟨g - 1, by omega⟩
      have hdiv : n / b < n := Nat.div_lt_self (by omega) (by omega)
      simp only [digitsBEAux, if_neg hn]
      congr 1
      exact ih g (n / b) (by omega) (by omega)

theorem digitsBE_def (b : Nat) (hb : 2 ≤ b) (n : Nat) :
    digitsBE b n = if n = 0 then [] else digitsBE b (n / b) ++ [n % b] := by
  by_cases hn : n = 0
  · subst hn; simp [digitsBE, digitsBEAux]
  · obtain ⟨m, rfl⟩ : ∃ k, n = k + 1 := ⟨n - 1, by omega⟩
    have hdiv : (m + 1) / b ≤ m := by
      have h2 : (m + 1) / b < m + 1 := Nat.div_lt_self (by omega) (by omega)
      omega
    simp only [digitsBE, digitsBEAux, if_neg hn]
    rw [digitsBEAux_fuel_eq b hb m ((m + 1) / b) ((m + 1) / b) hdiv le_rfl]

theorem fromDigitsBE_init (b a : Nat) (l : List Nat) :
    List.foldl (fun acc d => acc * b + d) a l
      = a * b ^ l.length + List.foldl (fun acc d => acc * b + d) 0 l := by
  induction l generalizing a with
  | nil => simp
  | cons x t ih =>
    simp only [List.foldl_cons, List.length_cons, Nat.zero_mul, Nat.zero_add]
    rw [ih (a * b + x), ih x]
    ring

theorem fromDigitsBE_append (b : Nat) (xs ys : List Nat) :
    fromDigitsBE b (xs ++ ys) = fromDigitsBE b xs * b ^ ys.length + fromDigitsBE b ys := by
  simp only [fromDigitsBE, List.foldl_append]
  exact fromDigitsBE_init b _ ys

theorem fromDigitsBE_digitsBE (b : Nat) (hb : 2 ≤ b) (n : Nat) :
    fromDigitsBE b (digitsBE b n) = n := by
  induction n using Nat.strong_induction_on with
  | _ n ih =>
    rw [digitsBE_def b hb n]
    by_cases hn : n = 0
    · simp [hn, fromDigitsBE]
    · rw [if_neg hn, fromDigitsBE_append, ih (n / b) (Nat.div_lt_self (by omega) (by omega))]
      simp only [fromDigitsBE, List.foldl_cons, List.foldl_nil, List.length_cons,
        List.length_nil, pow_one, zero_mul, zero_add]
      rw [Nat.mul_comm (n / b) b]
      exact Nat.div_add_mod n b

theorem digitsBE_lt (b : Nat) (hb : 2 ≤ b) (n : Nat) : ∀ d ∈ digitsBE b n, d < b := by
  induction n using Nat.strong_induction_on with
  | _ n ih =>
    rw [digitsBE_def b hb n]
    by_cases hn : n = 0
    · simp [hn]
    · rw [if_neg hn]
      intro d hd
      rcases List.mem_append.1 hd with h | h
      · exact ih (n / b) (Nat.div_lt_self (by omega) (by omega)) d h
      · have : d = n % b := by simpa using h
        subst this
        exact Nat.mod_lt _ (by omega)

theorem digitsBE_length_le (b : Nat) (hb : 2 ≤ b) :
    ∀ k n, n < b ^ k → (digitsBE b n).length ≤ k := by
  intro k
  induction k with
  | zero =>
    intro n hn
    have : n = 0 := by simpa using hn
    subst this
    simp [digitsBE, digitsBEAux]
  | succ k ih =>
    intro n hn
    rw [digitsBE_def b hb n]
    by_cases hn0 : n = 0
    · simp [hn0]
    · rw [if_neg hn0]
      have : n / b < b ^ k := by
        rw [Nat.div_lt_iff_lt_mul (by omega : 0 < b)]
        calc n < b ^ (k + 1) := hn
        _ = b ^ k * b := by ring
      simpa using Nat.succ_le_succ (ih (n / b) this)

theorem digitsBE_head (b : Nat) (hb : 2 ≤ b) :
    ∀ k d n, 1 ≤ d → d < b → d * b ^ k ≤ n → n < (d + 1) * b ^ k →
      ∃ t, digitsBE b n = d :: t ∧ t.length = k := by
  intro k
  induction k with
  | zero =>
    intro d n h1 hd hlo hhi
    simp only [pow_zero, mul_one] at hlo hhi
    have : n = d := by omega
    subst this
    refine ⟨[], ?_, rfl⟩
    rw [digitsBE_def b hb, if_neg (by omega : ¬ n = 0), Nat.div_eq_of_lt hd,
      Nat.mod_eq_of_lt hd]
    simp [digitsBE, digitsBEAux]
  | succ k ih =>
    intro d n h1 hd hlo hhi
    have hbk : 0 < b ^ k := Nat.pos_pow_of_pos k (by omega)
    have hn : n ≠ 0 := by
      have h2 : 0 < b ^ (k + 1) := Nat.pos_pow_of_pos _ (by omega)
      have : 1 * 1 ≤ d * b ^ (k + 1) := Nat.mul_le_mul (by omega) h2
      omega
    have hdivlo : d * b ^ k ≤ n / b := by
      rw [Nat.le_div_iff_mul_le (by omega : 0 < b)]
      calc d * b ^ k * b = d * b ^ (k + 1) := by ring
      _ ≤ n := hlo
    have hdivhi : n / b < (d + 1) * b ^ k := by
      rw [Nat.div_lt_iff_lt_mul (by omega : 0 < b)]
      calc n < (d + 1) * b ^ (k + 1) := hhi
      _ = (d + 1) * b ^ k * b := by ring
    obtain ⟨t, ht, hlen⟩ := ih d (n / b) h1 hd hdivlo hdivhi
    rw [digitsBE_def b hb, if_neg hn, ht]
    exact ⟨t ++ [n % b], rfl, by simp [hlen]⟩

theorem digitsBE_head_pos (b : Nat) (hb : 2 ≤ b) :
    ∀ n, n ≠ 0 → ∃ d t, digitsBE b n = d :: t ∧ 1 ≤ d ∧ d < b := by
  intro n
  induction n using Nat.strong_induction_on with
  | _ n ih =>
    intro hn
    by_cases hsmall : n < b
    · rw [digitsBE_def b hb, if_neg hn, Nat.div_eq_of_lt hsmall, Nat.mod_eq_of_lt hsmall]
      refine ⟨n, [], ?_, by omega, hsmall⟩
      simp [digitsBE, digitsBEAux]
    · have hq : n / b ≠ 0 := by
        intro h0
        have := (Nat.div_eq_zero_iff (by omega : 0 < b)).1 h0
        omega
      obtain ⟨d, t, ht, h1, hd⟩ := ih (n / b) (Nat.div_lt_self (by omega) (by omega)) hq
      rw [digitsBE_def b hb, if_neg hn, ht]
      exact ⟨d, t ++ [n % b], rfl, h1, hd⟩

theorem digitsBE_fromDigitsBE (b : Nat) (hb : 2 ≤ b) :
    ∀ bs : List Nat, (∀ x ∈ bs, x < b) → (bs = [] ∨ bs.headD 0 ≠ 0) →
      digitsBE b (fromDigitsBE b bs) = bs := by
  intro bs
  induction bs using List.reverseRecOn with
  | nil => intro _ _; simp [fromDigitsBE, digitsBE, digitsBEAux]
  | append_singleton ys y ih =>
    intro hlt hhead
    have hy : y < b := hlt y (by simp)
    rw [fromDigitsBE_append]
    have hys : fromDigitsBE b [y] = y := by simp [fromDigitsBE]
    rw [hys]
    simp only [List.length_cons, List.length_nil, pow_one, zero_add]
    rcases ys with _ | ⟨c, t⟩
    · have hy0 : y ≠ 0 := by
        rcases hhead with h | h
        · exact absurd h (by simp)
        · simpa using h
      simp only [fromDigitsBE, List.foldl_nil, zero_mul, zero_add, List.nil_append]
      rw [digitsBE_def b hb, if_neg hy0, Nat.div_eq_of_lt hy, Nat.mod_eq_of_lt hy]
      simp [digitsBE, digitsBEAux]
    · have hch : c ≠ 0 := by
        rcases hhead with h | h
        · exact absurd h (by simp)
        · simpa using h
      have hsplit : fromDigitsBE b (c :: t) = c * b ^ t.length + fromDigitsBE b t := by
        have h2 := fromDigitsBE_append b [c] t
        simpa [fromDigitsBE] using h2
      have hcpos : 0 < fromDigitsBE b (c :: t) := by
        have hbpos : 0 < b ^ t.length := Nat.pos_pow_of_pos _ (by omega)
        have : 1 * 1 ≤ c * b ^ t.length := Nat.mul_le_mul (by omega) hbpos
        omega
      have hne : fromDigitsBE b (c :: t) * b + y ≠ 0 := by
        have : 1 * b ≤ fromDigitsBE b (c :: t) * b := Nat.mul_le_mul_right b hcpos
        omega
      have e1 : (fromDigitsBE b (c :: t) * b + y) / b = fromDigitsBE b (c :: t) := by
        rw [add_comm, Nat.add_mul_div_right _ _ (by omega : 0 < b), Nat.div_eq_of_lt hy,
          zero_add]
      have e2 : (fromDigitsBE b (c :: t) * b + y) % b = y := by
        rw [add_comm, Nat.add_mul_mod_self_right, Nat.mod_eq_of_lt hy]
      rw [digitsBE_def b hb, if_neg hne, e1, e2,
        ih (fun x hx => hlt x (by simp at hx ⊢; tauto)) (Or.inr (by simpa using hch))]

/-! ## Shape of the hash outputs -/

theorem sha256Round_length (st : List Nat) (kw : Nat × Nat) :
    (sha256Round st kw).length = st.length := by
  unfold sha256Round
  split <;> simp_all

theorem foldl_sha256Round_length (l : List (Nat × Nat)) :
    ∀ st, (l.foldl sha256Round st).length = st.length := by
  induction l with
  | nil => intro st; rfl
  | cons kw t ih =>
    intro st
    simp only [List.foldl_cons]
    rw [ih, sha256Round_length]

theorem sha256Compress_length (st block : List Nat) :
    (sha256Compress st block).length = st.length := by
  unfold sha256Compress
  rw [List.length_zipWith, foldl_sha256Round_length]
  omega

theorem foldl_sha256Compress_length (blocks : List (List Nat)) :
    ∀ st, (blocks.foldl sha256Compress st).length = st.length := by
  induction blocks with
  | nil => intro st; rfl
  | cons b t ih =>
    intro st
    simp only [List.foldl_cons]
    rw [ih, sha256Compress_length]

theorem flatten_map_wordBytesBE_length (l : List Nat) :
    ((l.map wordBytesBE).flatten).length = 4 * l.length := by
  induction l with
  | nil => rfl
  | cons w t ih =>
    simp only [List.map_cons, List.flatten_cons, List.length_append, ih, List.length_cons]
    simp [wordBytesBE]
    omega

theorem flatten_map_wordBytesLE_length (l : List Nat) :
    ((l.map wordBytesLE).flatten).length = 4 * l.length := by
  induction l with
  | nil => rfl
  | cons w t ih =>
    simp only [List.map_cons, List.flatten_cons, List.length_append, ih, List.length_cons]
    simp [wordBytesLE]
    omega

theorem sha256_length (msg : List Nat) : (sha256 msg).length = 32 := by
  unfold sha256
  rw [flatten_map_wordBytesBE_length, foldl_sha256Compress_length]
  rfl

theorem sha256_lt (msg : List Nat) : ∀ x ∈ sha256 msg, x < 256 := by
  intro x hx
  unfold sha256 at hx
  rcases List.mem_flatten.1 hx with ⟨l, hl, hxl⟩
  rcases List.mem_map.1 hl with ⟨w, _, rfl⟩
  simp only [wordBytesBE, List.mem_cons, List.not_mem_nil, or_false] at hxl
  rcases hxl with h | h | h | h <;> subst h <;> exact Nat.mod_lt _ (by omega)

theorem ripemdStep_length (X ks rs ss : List Nat) (left : Bool) (st : List Nat) (j : Nat) :
    (ripemdStep X ks rs ss left st j).length = st.length := by
  unfold ripemdStep
  split <;> simp_all

theorem ripemdLine_length (X ks rs ss : List Nat) (left : Bool) (st : List Nat) :
    (ripemdLine X ks rs ss left st).length = st.length := by
  unfold ripemdLine
  generalize List.range 80 = l
  induction l generalizing st with
  | nil => rfl
  | cons j t ih =>
    simp only [List.foldl_cons]
    rw [ih, ripemdStep_length]

theorem ripemdCompress_length (h block : List Nat) (hlen : h.length = 5) :
    (ripemdCompress h block).length = 5 := by
  unfold ripemdCompress
  dsimp only
  split <;> simp_all

theorem foldl_ripemdCompress_length (blocks : List (List Nat)) :
    ∀ h, h.length = 5 → (blocks.foldl ripemdCompress h).length = 5 := by
  induction blocks with
  | nil => intro h hl; simpa using hl
  | cons b t ih =>
    intro h hl
    simp only [List.foldl_cons]
    exact ih _ (ripemdCompress_length h b hl)

theorem ripemd160_length (msg : List Nat) : (ripemd160 msg).length = 20 := by
  unfold ripemd160
  rw [flatten_map_wordBytesLE_length, foldl_ripemdCompress_length _ _ (by rfl)]

theorem ripemd160_lt (msg : List Nat) : ∀ x ∈ ripemd160 msg, x < 256 := by
  intro x hx
  unfold ripemd160 at hx
  rcases List.mem_flatten.1 hx with ⟨l, hl, hxl⟩
  rcases List.mem_map.1 hl with ⟨w, _, rfl⟩
  simp only [wordBytesLE, List.mem_cons, List.not_mem_nil, or_false] at hxl
  rcases hxl with h | h | h | h <;> subst h <;> exact Nat.mod_lt _ (by omega)

theorem hash160_length (msg : List Nat) : (hash160 msg).length = 20 :=
  ripemd160_length _

theorem hash160_lt (msg : List Nat) : ∀ x ∈ hash160 msg, x < 256 :=
  ripemd160_lt _

/-! ## Base58Check round-trip -/

theorem leadingZeros_decomp (bs : List Nat) :
    ∃ rest, bs = List.replicate (leadingZeros bs) 0 ++ rest ∧
      (rest = [] ∨ rest.headD 0 ≠ 0) := by
  induction bs with
  | nil => exact ⟨[], rfl, Or.inl rfl⟩
  | cons b t ih =>
    by_cases hb : b = 0
    · subst hb
      obtain ⟨rest, hdec, hhead⟩ := ih
      refine ⟨rest, ?_, hhead⟩
      have hz : leadingZeros (0 :: t) = leadingZeros t + 1 := by simp [leadingZeros]
      rw [hz, List.replicate_succ, List.cons_append]
      exact congrArg (0 :: ·) hdec
    · exact ⟨b :: t, by simp [leadingZeros, hb], Or.inr (by simpa using hb)⟩

theorem fromDigitsBE_replicate_zero (b z : Nat) :
    fromDigitsBE b (List.replicate z 0) = 0 := by
  induction z with
  | zero => rfl
  | succ z ih =>
    rw [List.replicate_succ]
    simpa [fromDigitsBE] using ih

theorem fromDigitsBE_zero_pre (b z : Nat) (rest : List Nat) :
    fromDigitsBE b (List.replicate z 0 ++ rest) = fromDigitsBE b rest := by
  rw [fromDigitsBE_append, fromDigitsBE_replicate_zero]
  omega

theorem fromDigitsBE_pos (b : Nat) (hb : 2 ≤ b) (c : Nat) (t : List Nat) (hc : c ≠ 0) :
    0 < fromDigitsBE b (c :: t) := by
  have h2 := fromDigitsBE_append b [c] t
  have hone : fromDigitsBE b [c] = c := by simp [fromDigitsBE]
  simp only [List.singleton_append] at h2
  rw [hone] at h2
  have hbpos : 0 < b ^ t.length := Nat.pos_pow_of_pos _ (by omega)
  have : 1 * 1 ≤ c * b ^ t.length := Nat.mul_le_mul (by omega) hbpos
  omega

theorem fromDigitsBE_lt (b : Nat) (hb : 2 ≤ b) :
    ∀ bs : List Nat, (∀ x ∈ bs, x < b) → fromDigitsBE b bs < b ^ bs.length := by
  intro bs
  induction bs using List.reverseRecOn with
  | nil => intro _; simp [fromDigitsBE]
  | append_singleton ys y ih =>
    intro hlt
    have hy : y < b := hlt y (by simp)
    have hys := ih (fun x hx => hlt x (by simp [hx]))
    rw [fromDigitsBE_append]
    simp only [fromDigitsBE, List.foldl_cons, List.foldl_nil, List.length_append,
      List.length_cons, List.length_nil, pow_one, zero_mul, zero_add]
    have : (fromDigitsBE b ys + 1) * b ≤ b ^ ys.length * b := Nat.mul_le_mul_right b hys
    calc fromDigitsBE b ys * b + y < (fromDigitsBE b ys + 1) * b := by nlinarith
    _ ≤ b ^ ys.length * b := this
    _ = b ^ (ys.length + 1) := by ring

theorem leadingOnes_replicate (z : Nat) (l : List Char) :
    leadingOnes (List.replicate z '1' ++ l) = z + leadingOnes l := by
  induction z with
  | zero => simp [leadingOnes]
  | succ z ih =>
    rw [List.replicate_succ, List.cons_append]
    have hone : leadingOnes ('1' :: (List.replicate z '1' ++ l))
        = leadingOnes (List.replicate z '1' ++ l) + 1 := by simp [leadingOnes]
    rw [hone, ih]
    omega

theorem b58Char_ne_one : ∀ d < 58, 1 ≤ d → b58Char d ≠ '1' := by decide

theorem b58Value_b58Char : ∀ d < 58, b58Value (b58Char d) = some d := by decide

theorem b58Values_map (ds : List Nat) (hlt : ∀ d ∈ ds, d < 58) :
    b58Values (ds.map b58Char) = .ok ds := by
  induction ds with
  | nil => rfl
  | cons d t ih =>
    simp only [List.map_cons, b58Values]
    rw [b58Value_b58Char d (hlt d (by simp))]
    rw [ih (fun x hx => hlt x (by simp [hx]))]

theorem b58Values_replicate_one (z : Nat) (l : List Char) (vs : List Nat)
    (h : b58Values l = .ok vs) :
    b58Values (List.replicate z '1' ++ l) = .ok (List.replicate z 0 ++ vs) := by
  induction z with
  | zero => simpa using h
  | succ z ih =>
    rw [List.replicate_succ, List.cons_append, List.replicate_succ, List.cons_append]
    simp only [b58Values]
    rw [show b58Value '1' = some 0 from rfl, ih]

theorem b58DecodeRaw_b58EncodeRaw (data : List Nat) (hlt : ∀ x ∈ data, x < 256) :
    b58DecodeRaw (b58EncodeRaw data) = .ok data := by
  obtain ⟨rest, hdec, hhead⟩ := leadingZeros_decomp data
  have hN : fromDigitsBE 256 data = fromDigitsBE 256 rest := by
    conv_lhs => rw [hdec]
    exact fromDigitsBE_zero_pre 256 _ rest
  have hrest_lt : ∀ x ∈ rest, x < 256 := by
    intro x hx
    exact hlt x (by rw [hdec]; exact List.mem_append_right _ hx)
  have hdigits : digitsBE 256 (fromDigitsBE 256 rest) = rest :=
    digitsBE_fromDigitsBE 256 (by omega) rest hrest_lt hhead
  have hdlt : ∀ d ∈ digitsBE 58 (fromDigitsBE 256 data), d < 58 :=
    digitsBE_lt 58 (by omega) _
  unfold b58EncodeRaw b58DecodeRaw
  rw [b58Values_replicate_one _ _ _ (b58Values_map _ hdlt)]
  dsimp only
  have hones : leadingOnes (List.replicate (leadingZeros data) '1' ++
      (digitsBE 58 (fromDigitsBE 256 data)).map b58Char) = leadingZeros data := by
    rw [leadingOnes_replicate]
    by_cases hN0 : fromDigitsBE 256 data = 0
    · rw [hN0]
      simp [digitsBE, digitsBEAux, leadingOnes]
    · obtain ⟨d, t, hdt, h1, hd⟩ := digitsBE_head_pos 58 (by omega) _ hN0
      rw [hdt]
      simp only [List.map_cons, leadingOnes]
      rw [if_neg (b58Char_ne_one d hd h1)]
      omega
  rw [hones, fromDigitsBE_zero_pre, fromDigitsBE_digitsBE 58 (by omega), hN, hdigits]
  rw [← hdec]

theorem b58FromCheck_b58EncodeCheck (data : List Nat) (hlt : ∀ x ∈ data, x < 256) :
    b58FromCheck (b58EncodeCheck data) = .ok data := by
  have hck_lt : ∀ x ∈ (sha256 (sha256 data)).take 4, x < 256 := by
    intro x hx
    exact sha256_lt _ x (List.mem_of_mem_take hx)
  have hck_len : ((sha256 (sha256 data)).take 4).length = 4 := by
    rw [List.length_take, sha256_length]
    omega
  have hall : ∀ x ∈ data ++ (sha256 (sha256 data)).take 4, x < 256 := by
    intro x hx
    rcases List.mem_append.1 hx with h | h
    · exact hlt x h
    · exact hck_lt x h
  unfold b58EncodeCheck b58FromCheck
  rw [b58DecodeRaw_b58EncodeRaw _ hall]
  dsimp only
  have hlen : (data ++ (sha256 (sha256 data)).take 4).length = data.length + 4 := by
    rw [List.length_append, hck_len]
  rw [if_neg (by omega)]
  have htake : (data ++ (sha256 (sha256 data)).take 4).take
      ((data ++ (sha256 (sha256 data)).take 4).length - 4) = data := by
    rw [hlen]
    simp only [Nat.add_sub_cancel]
    exact List.take_left data _
  have hdrop : (data ++ (sha256 (sha256 data)).take 4).drop
      ((data ++ (sha256 (sha256 data)).take 4).length - 4) = (sha256 (sha256 data)).take 4 := by
    rw [hlen]
    simp only [Nat.add_sub_cancel]
    exact List.drop_left data _
  rw [htake, hdrop, if_pos rfl]

/-! ## Length and first-character facts about Base58Check text -/

theorem b58EncodeRaw_length_le (data : List Nat) (hlt : ∀ x ∈ data, x < 256) :
    (b58EncodeRaw data).length ≤ 2 * data.length := by
  obtain ⟨rest, hdec, hhead⟩ := leadingZeros_decomp data
  have hlen : data.length = leadingZeros data + rest.length := by
    conv_lhs => rw [hdec]
    simp
  have hrest_lt : ∀ x ∈ rest, x < 256 := by
    intro x hx
    exact hlt x (by rw [hdec]; exact List.mem_append_right _ hx)
  have hN : fromDigitsBE 256 data = fromDigitsBE 256 rest := by
    conv_lhs => rw [hdec]
    exact fromDigitsBE_zero_pre 256 _ rest
  have hNlt : fromDigitsBE 256 data < 58 ^ (2 * rest.length) := by
    rw [hN]
    calc fromDigitsBE 256 rest < 256 ^ rest.length := fromDigitsBE_lt 256 (by omega) rest hrest_lt
    _ ≤ 3364 ^ rest.length := Nat.pow_le_pow_left (by omega) _
    _ = (58 ^ 2) ^ rest.length := by norm_num
    _ = 58 ^ (2 * rest.length) := by rw [← Nat.pow_mul]
  have hdl : (digitsBE 58 (fromDigitsBE 256 data)).length ≤ 2 * rest.length :=
    digitsBE_length_le 58 (by omega) _ _ hNlt
  unfold b58EncodeRaw
  rw [List.length_append, List.length_replicate, List.length_map]
  omega

theorem b58EncodeCheck_length_le (data : List Nat) (hlt : ∀ x ∈ data, x < 256) :
    (b58EncodeCheck data).length ≤ 2 * data.length + 8 := by
  unfold b58EncodeCheck
  have hall : ∀ x ∈ data ++ (sha256 (sha256 data)).take 4, x < 256 := by
    intro x hx
    rcases List.mem_append.1 hx with h | h
    · exact hlt x h
    · exact sha256_lt _ x (List.mem_of_mem_take h)
  have := b58EncodeRaw_length_le _ hall
  have hlen : (data ++ (sha256 (sha256 data)).take 4).length = data.length + 4 := by
    rw [List.length_append, List.length_take, sha256_length]
    omega
  omega

theorem b58EncodeCheck_head_zero (h : List Nat) :
    ∃ t, b58EncodeCheck (0 :: h) = '1' :: t := by
  unfold b58EncodeCheck b58EncodeRaw
  have hz : leadingZeros ((0 :: h) ++ (sha256 (sha256 (0 :: h))).take 4)
      = leadingZeros (h ++ (sha256 (sha256 (0 :: h))).take 4) + 1 := by
    simp [leadingZeros]
  rw [hz, List.replicate_succ, List.cons_append]
  exact ⟨_, rfl⟩

theorem b58EncodeCheck_head_digit (v : Nat) (h : List Nat) (hlen : h.length = 20)
    (hlt : ∀ x ∈ h, x < 256) (d : Nat) (hd1 : 1 ≤ d) (hd58 : d < 58)
    (hlo : d * 58 ^ 33 ≤ v * 256 ^ 24) (hhi : (v + 1) * 256 ^ 24 ≤ (d + 1) * 58 ^ 33) :
    ∃ t, b58EncodeCheck (v :: h) = b58Char d :: t := by
  have hv0 : v ≠ 0 := by
    intro h0
    subst h0
    have : 0 < d * 58 ^ 33 := by positivity
    omega
  unfold b58EncodeCheck b58EncodeRaw
  have hz : leadingZeros ((v :: h) ++ (sha256 (sha256 (v :: h))).take 4) = 0 := by
    simp [leadingZeros, hv0]
  have hrest_lt : ∀ x ∈ h ++ (sha256 (sha256 (v :: h))).take 4, x < 256 := by
    intro x hx
    rcases List.mem_append.1 hx with hm | hm
    · exact hlt x hm
    · exact sha256_lt _ x (List.mem_of_mem_take hm)
  have hrest_len : (h ++ (sha256 (sha256 (v :: h))).take 4).length = 24 := by
    rw [List.length_append, List.length_take, sha256_length, hlen]
    omega
  have hsplit : fromDigitsBE 256 ((v :: h) ++ (sha256 (sha256 (v :: h))).take 4)
      = v * 256 ^ 24 + fromDigitsBE 256 (h ++ (sha256 (sha256 (v :: h))).take 4) := by
    have h2 := fromDigitsBE_append 256 [v] (h ++ (sha256 (sha256 (v :: h))).take 4)
    have hone : fromDigitsBE 256 [v] = v := by simp [fromDigitsBE]
    rw [hone, hrest_len] at h2
    simpa using h2
  have hrlt : fromDigitsBE 256 (h ++ (sha256 (sha256 (v :: h))).take 4) < 256 ^ 24 := by
    have := fromDigitsBE_lt 256 (by omega) _ hrest_lt
    rwa [hrest_len] at this
  obtain ⟨t, ht, _⟩ := digitsBE_head 58 (by omega) 33 d
    (fromDigitsBE 256 ((v :: h) ++ (sha256 (sha256 (v :: h))).take 4)) hd1 hd58
    (by rw [hsplit]; omega) (by rw [hsplit]; omega)
  simp only [List.cons_append] at hz ht ⊢
  rw [hz, ht]
  exact ⟨_, rfl⟩

/-! ## When decoding cannot take the Bech32 path -/

theorem networkOfChars_none (cs : List Char)
    (h : cs = [] ∨ (cs.headD 'x' ≠ 'l' ∧ cs.headD 'x' ≠ 'b')) :
    networkOfChars cs = none := by
  rcases cs with _ | ⟨c, l⟩
  · rfl
  · have hc : c ≠ 'l' ∧ c ≠ 'b' := by
      rcases h with h | h
      · exact absurd h (by simp)
      · simpa using h
    unfold networkOfChars
    split_ifs <;> simp_all

theorem bech32_network_none_of_head (c : Char) (cs : List Char)
    (hl : lowerCh c ≠ 'l') (hb : lowerCh c ≠ 'b') :
    bech32_network (String.mk (c :: cs)) = none := by
  unfold bech32_network
  cases hfind : rfind1 (String.mk (c :: cs)).data with
  | none => rfl
  | some sep =>
    unfold network_from_coin
    apply networkOfChars_none
    have hdata : (String.mk (c :: cs)).data = c :: cs := rfl
    rw [hdata] at hfind ⊢
    cases sep with
    | zero => left; rfl
    | succ k =>
      right
      have htake : (c :: cs).take (k + 1) = c :: cs.take k := rfl
      rw [htake]
      simp only [lowerStr]
      constructor <;> simpa

/-! ## Decoding the Base58Check encoding of a 21-byte payload -/

theorem from_str_b58EncodeCheck (v : Nat) (h : List Nat) (hv : v < 256) (hh : h.length = 20)
    (hb : ∀ x ∈ h, x < 256)
    (hdiv : bech32_network (String.mk (b58EncodeCheck (v :: h))) = none) :
    BtcForkAddress.from_str (String.mk (b58EncodeCheck (v :: h))) =
      (if v = 0 then mkBase58Payload "btc" .PubkeyHash h
       else if v = 5 then mkBase58Payload "btc" .ScriptHash h
       else if v = 0x30 then mkBase58Payload "ltc" .PubkeyHash h
       else if v = 0x32 then mkBase58Payload "ltc" .ScriptHash h
       else if v = 0x3a then mkBase58Payload "ltc-testnet" .ScriptHash h
       else if v = 111 then mkBase58Payload "btc-testnet" .PubkeyHash h
       else if v = 196 then mkBase58Payload "btc-testnet" .ScriptHash h
       else .err (.Base58 (.InvalidVersion [v]))) := by
  have hall : ∀ x ∈ v :: h, x < 256 := by
    intro x hx
    rcases List.mem_cons.1 hx with h1 | h1
    · omega
    · exact hb x h1
  have hlen50 : ¬ (String.mk (b58EncodeCheck (v :: h))).data.length > 50 := by
    have := b58EncodeCheck_length_le (v :: h) hall
    have hl : (v :: h).length = 21 := by simp [hh]
    simp only [String.mk] at *
    omega
  unfold BtcForkAddress.from_str
  rw [hdiv]
  have hdata : (String.mk (b58EncodeCheck (v :: h))).data = b58EncodeCheck (v :: h) := rfl
  unfold _decode_base58
  rw [hdata] at hlen50 ⊢
  rw [if_neg hlen50, b58FromCheck_b58EncodeCheck _ hall]
  have h21 : ¬ (v :: h).length ≠ 21 := by simp [hh]
  dsimp only
  rw [if_neg h21]

/-! ## Bit-regrouping facts for `convertBits` -/

theorem land_mask (x n : Nat) : x &&& (2 ^ n - 1) = x % 2 ^ n := by
  apply Nat.eq_of_testBit_eq
  intro i
  simp [Nat.testBit_land, Nat.testBit_two_pow_sub_one, Nat.testBit_mod_two_pow, Bool.and_comm]

theorem shiftLeft_lor_eq_add : ∀ (k : Nat) (a v : Nat), v < 2 ^ k →
    (a <<< k) ||| v = a * 2 ^ k + v := by
  intro k
  induction k with
  | zero =>
    intro a v hv
    have : v = 0 := by omega
    subst this
    simp [Nat.shiftLeft_eq]
  | succ k ih =>
    intro a v hv
    have hdiv2 : v.div2 < 2 ^ k := by
      rw [Nat.div2_val]
      have h2 : (2 : Nat) ^ (k + 1) = 2 ^ k * 2 := by ring
      omega
    conv_lhs => rw [← Nat.bit_decomp v]
    have h1 : a <<< (k + 1) = Nat.bit false (a <<< k) := by
      simp [Nat.shiftLeft_eq, Nat.bit_val, pow_succ]
      ring
    rw [h1, Nat.lor_bit, ih a v.div2 hdiv2]
    have h3 : 2 * v.div2 + v.bodd.toNat = v := by
      conv_rhs => rw [← Nat.bit_decomp v]
      rw [Nat.bit_val]
    simp only [Bool.false_or, Nat.bit_val]
    rw [pow_succ, ← mul_assoc]
    omega

/-- The 8-bit-to-5-bit regrouping of a byte list whose length is a multiple
of five, written arithmetically (proof-side specification of `convert_bits`). -/
def regroup85 : List Nat → List Nat
  | b0 :: b1 :: b2 :: b3 :: b4 :: rest =>
      b0 / 8 :: ((b0 % 8) * 4 + b1 / 64) :: (b1 % 64) / 2 :: ((b1 % 2) * 16 + b2 / 16) ::
      ((b2 % 16) * 2 + b3 / 128) :: (b3 % 128) / 4 :: ((b3 % 4) * 8 + b4 / 32) :: b4 % 32 ::
      regroup85 rest
  | _ => []

theorem convert85_eq : ∀ (n : Nat) (bs : List Nat) (acc : Nat), bs.length = 5 * n →
    (∀ x ∈ bs, x < 256) →
    convertBitsAux 8 5 31 true bs acc 0 = .ok (regroup85 bs) := by
  intro n
  induction n with
  | zero =>
    intro bs acc hlen _
    have : bs = [] := List.length_eq_zero.1 (by omega)
    subst this
    rfl
  | succ n ih =>
    intro bs acc hlen hlt
    rcases bs with _ | ⟨b0, _ | ⟨b1, _ | ⟨b2, _ | ⟨b3, _ | ⟨b4, rest⟩⟩⟩⟩⟩ <;>
      simp only [List.length_cons, List.length_nil] at hlen <;> try omega
    have h0 : b0 < 256 := hlt b0 (by simp)
    have h1 : b1 < 256 := hlt b1 (by simp)
    have h2 : b2 < 256 := hlt b2 (by simp)
    have h3 : b3 < 256 := hlt b3 (by simp)
    have h4 : b4 < 256 := hlt b4 (by simp)
    have h256 : (2 : Nat) ^ 8 = 256 := by norm_num
    have hs0 : b0 >>> 8 = 0 := by rw [Nat.shiftRight_eq_div_pow, h256]; omega
    have hs1 : b1 >>> 8 = 0 := by rw [Nat.shiftRight_eq_div_pow, h256]; omega
    have hs2 : b2 >>> 8 = 0 := by rw [Nat.shiftRight_eq_div_pow, h256]; omega
    have hs3 : b3 >>> 8 = 0 := by rw [Nat.shiftRight_eq_div_pow, h256]; omega
    have hs4 : b4 >>> 8 = 0 := by rw [Nat.shiftRight_eq_div_pow, h256]; omega
    have e0 : convertBitsAux 8 5 31 true (b0 :: b1 :: b2 :: b3 :: b4 :: rest) acc 0 =
        (match convertBitsAux 8 5 31 true (b1 :: b2 :: b3 :: b4 :: rest) ((acc <<< 8) ||| b0) 3 with
         | .error e => .error e
         | .ok outs => .ok ((((acc <<< 8 ||| b0) >>> 3) &&& 31) :: outs)) := by
      conv_lhs => rw [convertBitsAux]
      rw [hs0]
      rfl
    have e1 : convertBitsAux 8 5 31 true (b1 :: b2 :: b3 :: b4 :: rest) ((acc <<< 8) ||| b0) 3 =
        (match convertBitsAux 8 5 31 true (b2 :: b3 :: b4 :: rest)
            (((acc <<< 8) ||| b0) <<< 8 ||| b1) 1 with
         | .error e => .error e
         | .ok outs => .ok (((((acc <<< 8 ||| b0) <<< 8 ||| b1) >>> 6) &&& 31) ::
             ((((acc <<< 8 ||| b0) <<< 8 ||| b1) >>> 1) &&& 31) :: outs)) := by
      conv_lhs => rw [convertBitsAux]
      rw [hs1]
      rfl
    have e2 : convertBitsAux 8 5 31 true (b2 :: b3 :: b4 :: rest)
        (((acc <<< 8) ||| b0) <<< 8 ||| b1) 1 =
        (match convertBitsAux 8 5 31 true (b3 :: b4 :: rest)
            ((((acc <<< 8) ||| b0) <<< 8 ||| b1) <<< 8 ||| b2) 4 with
         | .error e => .error e
         | .ok outs => .ok ((((((acc <<< 8 ||| b0) <<< 8 ||| b1) <<< 8 ||| b2) >>> 4) &&& 31) ::
             outs)) := by
      conv_lhs => rw [convertBitsAux]
      rw [hs2]
      rfl
    have e3 : convertBitsAux 8 5 31 true (b3 :: b4 :: rest)
        ((((acc <<< 8) ||| b0) <<< 8 ||| b1) <<< 8 ||| b2) 4 =
        (match convertBitsAux 8 5 31 true (b4 :: rest)
            (((((acc <<< 8) ||| b0) <<< 8 ||| b1) <<< 8 ||| b2) <<< 8 ||| b3) 2 with
         | .error e => .error e
         | .ok outs => .ok
             (((((((acc <<< 8 ||| b0) <<< 8 ||| b1) <<< 8 ||| b2) <<< 8 ||| b3) >>> 7) &&& 31) ::
              ((((((acc <<< 8 ||| b0) <<< 8 ||| b1) <<< 8 ||| b2) <<< 8 ||| b3) >>> 2) &&& 31) ::
              outs)) := by
      conv_lhs => rw [convertBitsAux]
      rw [hs3]
      rfl
    have e4 : convertBitsAux 8 5 31 true (b4 :: rest)
        (((((acc <<< 8) ||| b0) <<< 8 ||| b1) <<< 8 ||| b2) <<< 8 ||| b3) 2 =
        (match convertBitsAux 8 5 31 true rest
            ((((((acc <<< 8) ||| b0) <<< 8 ||| b1) <<< 8 ||| b2) <<< 8 ||| b3) <<< 8 ||| b4) 0 with
         | .error e => .error e
         | .ok outs => .ok
             (((((((((acc <<< 8 ||| b0) <<< 8 ||| b1) <<< 8 ||| b2) <<< 8 ||| b3) <<< 8 ||| b4)
                 >>> 5) &&& 31)) ::
              ((((((((acc <<< 8 ||| b0) <<< 8 ||| b1) <<< 8 ||| b2) <<< 8 ||| b3) <<< 8 ||| b4)
                 >>> 0) &&& 31)) :: outs)) := by
      conv_lhs => rw [convertBitsAux]
      rw [hs4]
      rfl
    rw [e0, e1, e2, e3, e4,
      ih rest _ (by omega) (fun x hx => hlt x (by simp [hx]))]
    have hA0 : (acc <<< 8) ||| b0 = acc * 256 + b0 := by
      rw [shiftLeft_lor_eq_add 8 acc b0 (by omega), h256]
    rw [hA0]
    have hA1 : ((acc * 256 + b0) <<< 8) ||| b1 = (acc * 256 + b0) * 256 + b1 := by
      rw [shiftLeft_lor_eq_add 8 _ b1 (by omega), h256]
    rw [hA1]
    have hA2 : (((acc * 256 + b0) * 256 + b1) <<< 8) ||| b2
        = ((acc * 256 + b0) * 256 + b1) * 256 + b2 := by
      rw [shiftLeft_lor_eq_add 8 _ b2 (by omega), h256]
    rw [hA2]
    have hA3 : ((((acc * 256 + b0) * 256 + b1) * 256 + b2) <<< 8) ||| b3
        = (((acc * 256 + b0) * 256 + b1) * 256 + b2) * 256 + b3 := by
      rw [shiftLeft_lor_eq_add 8 _ b3 (by omega), h256]
    rw [hA3]
    have hA4 : (((((acc * 256 + b0) * 256 + b1) * 256 + b2) * 256 + b3) <<< 8) ||| b4
        = ((((acc * 256 + b0) * 256 + b1) * 256 + b2) * 256 + b3) * 256 + b4 := by
      rw [shiftLeft_lor_eq_add 8 _ b4 (by omega), h256]
    rw [hA4]
    conv_rhs => rw [regroup85]
    simp only [Nat.shiftRight_eq_div_pow, show (31 : Nat) = 2 ^ 5 - 1 from rfl, land_mask]
    norm_num
    omega
theorem convert58_chunk (u0 u1 u2 u3 u4 u5 u6 u7 : Nat) (rest : List Nat) (acc : Nat)
    (q0 : u0 < 32) (q1 : u1 < 32) (q2 : u2 < 32) (q3 : u3 < 32)
    (q4 : u4 < 32) (q5 : u5 < 32) (q6 : u6 < 32) (q7 : u7 < 32) :
    convertBitsAux 5 8 255 false (u0 :: u1 :: u2 :: u3 :: u4 :: u5 :: u6 :: u7 :: rest) acc 0 =
      (match convertBitsAux 5 8 255 false rest ((((((((acc * 32 + u0) * 32 + u1) * 32 + u2) * 32 + u3) * 32 + u4) * 32 + u5) * 32 + u6) * 32 + u7) 0 with
       | .error e => .error e
       | .ok outs => .ok ((u0 * 8 + u1 / 4) :: (u1 % 4 * 64 + u2 * 2 + u3 / 16) ::
           (u3 % 16 * 16 + u4 / 2) :: (u4 % 2 * 128 + u5 * 4 + u6 / 8) ::
           (u6 % 8 * 32 + u7) :: outs)) := by
  have h32 : (2 : Nat) ^ 5 = 32 := by norm_num
  have o0 : u0 >>> 5 = 0 := by rw [Nat.shiftRight_eq_div_pow, h32]; omega
  have o1 : u1 >>> 5 = 0 := by rw [Nat.shiftRight_eq_div_pow, h32]; omega
  have o2 : u2 >>> 5 = 0 := by rw [Nat.shiftRight_eq_div_pow, h32]; omega
  have o3 : u3 >>> 5 = 0 := by rw [Nat.shiftRight_eq_div_pow, h32]; omega
  have o4 : u4 >>> 5 = 0 := by rw [Nat.shiftRight_eq_div_pow, h32]; omega
  have o5 : u5 >>> 5 = 0 := by rw [Nat.shiftRight_eq_div_pow, h32]; omega
  have o6 : u6 >>> 5 = 0 := by rw [Nat.shiftRight_eq_div_pow, h32]; omega
  have o7 : u7 >>> 5 = 0 := by rw [Nat.shiftRight_eq_div_pow, h32]; omega
  have f0 : convertBitsAux 5 8 255 false (u0 :: u1 :: u2 :: u3 :: u4 :: u5 :: u6 :: u7 :: rest) acc 0 =
      (match convertBitsAux 5 8 255 false (u1 :: u2 :: u3 :: u4 :: u5 :: u6 :: u7 :: rest) (acc <<< 5 ||| u0) 5 with
       | .error e => .error e
       | .ok outs => .ok ( outs)) := by
    conv_lhs => rw [convertBitsAux]
    rw [o0]
    rfl
  have f1 : convertBitsAux 5 8 255 false (u1 :: u2 :: u3 :: u4 :: u5 :: u6 :: u7 :: rest) (acc <<< 5 ||| u0) 5 =
      (match convertBitsAux 5 8 255 false (u2 :: u3 :: u4 :: u5 :: u6 :: u7 :: rest) ((acc <<< 5 ||| u0) <<< 5 ||| u1) 2 with
       | .error e => .error e
       | .ok outs => .ok (((((acc <<< 5 ||| u0) <<< 5 ||| u1) >>> 2) &&& 255) :: outs)) := by
    conv_lhs => rw [convertBitsAux]
    rw [o1]
    rfl
  have f2 : convertBitsAux 5 8 255 false (u2 :: u3 :: u4 :: u5 :: u6 :: u7 :: rest) ((acc <<< 5 ||| u0) <<< 5 ||| u1) 2 =
      (match convertBitsAux 5 8 255 false (u3 :: u4 :: u5 :: u6 :: u7 :: rest) (((acc <<< 5 ||| u0) <<< 5 ||| u1) <<< 5 ||| u2) 7 with
       | .error e => .error e
       | .ok outs => .ok ( outs)) := by
    conv_lhs => rw [convertBitsAux]
    rw [o2]
    rfl
  have f3 : convertBitsAux 5 8 255 false (u3 :: u4 :: u5 :: u6 :: u7 :: rest) (((acc <<< 5 ||| u0) <<< 5 ||| u1) <<< 5 ||| u2) 7 =
      (match convertBitsAux 5 8 255 false (u4 :: u5 :: u6 :: u7 :: rest) ((((acc <<< 5 ||| u0) <<< 5 ||| u1) <<< 5 ||| u2) <<< 5 ||| u3) 4 with
       | .error e => .error e
       | .ok outs => .ok (((((((acc <<< 5 ||| u0) <<< 5 ||| u1) <<< 5 ||| u2) <<< 5 ||| u3) >>> 4) &&& 255) :: outs)) := by
    conv_lhs => rw [convertBitsAux]
    rw [o3]
    rfl
  have f4 : convertBitsAux 5 8 255 false (u4 :: u5 :: u6 :: u7 :: rest) ((((acc <<< 5 ||| u0) <<< 5 ||| u1) <<< 5 ||| u2) <<< 5 ||| u3) 4 =
      (match convertBitsAux 5 8 255 false (u5 :: u6 :: u7 :: rest) (((((acc <<< 5 ||| u0) <<< 5 ||| u1) <<< 5 ||| u2) <<< 5 ||| u3) <<< 5 ||| u4) 1 with
       | .error e => .error e
       | .ok outs => .ok ((((((((acc <<< 5 ||| u0) <<< 5 ||| u1) <<< 5 ||| u2) <<< 5 ||| u3) <<< 5 ||| u4) >>> 1) &&& 255) :: outs)) := by
    conv_lhs => rw [convertBitsAux]
    rw [o4]
    rfl
  have f5 : convertBitsAux 5 8 255 false (u5 :: u6 :: u7 :: rest) (((((acc <<< 5 ||| u0) <<< 5 ||| u1) <<< 5 ||| u2) <<< 5 ||| u3) <<< 5 ||| u4) 1 =
      (match convertBitsAux 5 8 255 false (u6 :: u7 :: rest) ((((((acc <<< 5 ||| u0) <<< 5 ||| u1) <<< 5 ||| u2) <<< 5 ||| u3) <<< 5 ||| u4) <<< 5 ||| u5) 6 with
       | .error e => .error e
       | .ok outs => .ok ( outs)) := by
    conv_lhs => rw [convertBitsAux]
    rw [o5]
    rfl
  have f6 : convertBitsAux 5 8 255 false (u6 :: u7 :: rest) ((((((acc <<< 5 ||| u0) <<< 5 ||| u1) <<< 5 ||| u2) <<< 5 ||| u3) <<< 5 ||| u4) <<< 5 ||| u5) 6 =
      (match convertBitsAux 5 8 255 false (u7 :: rest) (((((((acc <<< 5 ||| u0) <<< 5 ||| u1) <<< 5 ||| u2) <<< 5 ||| u3) <<< 5 ||| u4) <<< 5 ||| u5) <<< 5 ||| u6) 3 with
       | .error e => .error e
       | .ok outs => .ok ((((((((((acc <<< 5 ||| u0) <<< 5 ||| u1) <<< 5 ||| u2) <<< 5 ||| u3) <<< 5 ||| u4) <<< 5 ||| u5) <<< 5 ||| u6) >>> 3) &&& 255) :: outs)) := by
    conv_lhs => rw [convertBitsAux]
    rw [o6]
    rfl
  have f7 : convertBitsAux 5 8 255 false (u7 :: rest) (((((((acc <<< 5 ||| u0) <<< 5 ||| u1) <<< 5 ||| u2) <<< 5 ||| u3) <<< 5 ||| u4) <<< 5 ||| u5) <<< 5 ||| u6) 3 =
      (match convertBitsAux 5 8 255 false (rest) ((((((((acc <<< 5 ||| u0) <<< 5 ||| u1) <<< 5 ||| u2) <<< 5 ||| u3) <<< 5 ||| u4) <<< 5 ||| u5) <<< 5 ||| u6) <<< 5 ||| u7) 0 with
       | .error e => .error e
       | .ok outs => .ok (((((((((((acc <<< 5 ||| u0) <<< 5 ||| u1) <<< 5 ||| u2) <<< 5 ||| u3) <<< 5 ||| u4) <<< 5 ||| u5) <<< 5 ||| u6) <<< 5 ||| u7) >>> 0) &&& 255) :: outs)) := by
    conv_lhs => rw [convertBitsAux]
    rw [o7]
    rfl
  rw [f0, f1, f2, f3, f4, f5, f6, f7]
  have g0 : acc <<< 5 ||| u0 = acc * 32 + u0 := by
    rw [shiftLeft_lor_eq_add 5 _ _ (by rw [h32]; omega), h32]
  rw [g0]
  have g1 : (acc * 32 + u0) <<< 5 ||| u1 = (acc * 32 + u0) * 32 + u1 := by
    rw [shiftLeft_lor_eq_add 5 _ _ (by rw [h32]; omega), h32]
  rw [g1]
  have g2 : ((acc * 32 + u0) * 32 + u1) <<< 5 ||| u2 = ((acc * 32 + u0) * 32 + u1) * 32 + u2 := by
    rw [shiftLeft_lor_eq_add 5 _ _ (by rw [h32]; omega), h32]
  rw [g2]
  have g3 : (((acc * 32 + u0) * 32 + u1) * 32 + u2) <<< 5 ||| u3 = (((acc * 32 + u0) * 32 + u1) * 32 + u2) * 32 + u3 := by
    rw [shiftLeft_lor_eq_add 5 _ _ (by rw [h32]; omega), h32]
  rw [g3]
  have g4 : ((((acc * 32 + u0) * 32 + u1) * 32 + u2) * 32 + u3) <<< 5 ||| u4 = ((((acc * 32 + u0) * 32 + u1) * 32 + u2) * 32 + u3) * 32 + u4 := by
    rw [shiftLeft_lor_eq_add 5 _ _ (by rw [h32]; omega), h32]
  rw [g4]
  have g5 : (((((acc * 32 + u0) * 32 + u1) * 32 + u2) * 32 + u3) * 32 + u4) <<< 5 ||| u5 = (((((acc * 32 + u0) * 32 + u1) * 32 + u2) * 32 + u3) * 32 + u4) * 32 + u5 := by
    rw [shiftLeft_lor_eq_add 5 _ _ (by rw [h32]; omega), h32]
  rw [g5]
  have g6 : ((((((acc * 32 + u0) * 32 + u1) * 32 + u2) * 32 + u3) * 32 + u4) * 32 + u5) <<< 5 ||| u6 = ((((((acc * 32 + u0) * 32 + u1) * 32 + u2) * 32 + u3) * 32 + u4) * 32 + u5) * 32 + u6 := by
    rw [shiftLeft_lor_eq_add 5 _ _ (by rw [h32]; omega), h32]
  rw [g6]
  have g7 : (((((((acc * 32 + u0) * 32 + u1) * 32 + u2) * 32 + u3) * 32 + u4) * 32 + u5) * 32 + u6) <<< 5 ||| u7 = (((((((acc * 32 + u0) * 32 + u1) * 32 + u2) * 32 + u3) * 32 + u4) * 32 + u5) * 32 + u6) * 32 + u7 := by
    rw [shiftLeft_lor_eq_add 5 _ _ (by rw [h32]; omega), h32]
  rw [g7]
  cases hre : convertBitsAux 5 8 255 false rest ((((((((acc * 32 + u0) * 32 + u1) * 32 + u2) * 32 + u3) * 32 + u4) * 32 + u5) * 32 + u6) * 32 + u7) 0 with
  | error e => rfl
  | ok outs =>
    simp only [Nat.shiftRight_eq_div_pow, show (255 : Nat) = 2 ^ 8 - 1 from rfl, land_mask,
      Except.ok.injEq, List.cons.injEq]
    norm_num
    omega

theorem convert58_eq : ∀ (n : Nat) (bs : List Nat) (acc : Nat), bs.length = 5 * n →
    (∀ x ∈ bs, x < 256) →
    convertBitsAux 5 8 255 false (regroup85 bs) acc 0 = .ok bs := by
  intro n
  induction n with
  | zero =>
    intro bs acc hlen _
    have : bs = [] := List.length_eq_zero.1 (by omega)
    subst this
    show convertBitsAux 5 8 255 false [] acc 0 = .ok []
    conv_lhs => rw [convertBitsAux]
    have hz : (acc <<< (8 - 0)) &&& 255 = 0 := by
      rw [Nat.shiftLeft_eq, show (255 : Nat) = 2 ^ 8 - 1 from rfl, land_mask]
      simp [Nat.mul_mod_left]
    rw [hz]
    rfl
  | succ n ih =>
    intro bs acc hlen hlt
    rcases bs with _ | ⟨b0, _ | ⟨b1, _ | ⟨b2, _ | ⟨b3, _ | ⟨b4, rest⟩⟩⟩⟩⟩ <;>
      simp only [List.length_cons, List.length_nil] at hlen <;> try omega
    have h0 : b0 < 256 := hlt b0 (by simp)
    have h1 : b1 < 256 := hlt b1 (by simp)
    have h2 : b2 < 256 := hlt b2 (by simp)
    have h3 : b3 < 256 := hlt b3 (by simp)
    have h4 : b4 < 256 := hlt b4 (by simp)
    conv_lhs => rw [regroup85]
    rw [convert58_chunk _ _ _ _ _ _ _ _ _ _ (by omega) (by omega) (by omega) (by omega)
      (by omega) (by omega) (by omega) (by omega)]
    rw [ih rest _ (by omega) (fun x hx => hlt x (by simp [hx]))]
    simp only [Except.ok.injEq, List.cons.injEq]
    refine ⟨by omega, by omega, by omega, by omega, by omega, trivial⟩

/-! ## The Bech32 checksum verifies its own construction -/

theorem shiftLeft_xor_small : ∀ (k : Nat) (y c : Nat), c < 2 ^ k →
    (y <<< k) ^^^ c = y * 2 ^ k + c := by
  intro k
  induction k with
  | zero =>
    intro y c hc
    have : c = 0 := by omega
    subst this
    simp [Nat.shiftLeft_eq]
  | succ k ih =>
    intro y c hc
    have hdiv2 : c.div2 < 2 ^ k := by
      rw [Nat.div2_val]
      have h2 : (2 : Nat) ^ (k + 1) = 2 ^ k * 2 := by ring
      omega
    conv_lhs => rw [← Nat.bit_decomp c]
    have h1 : y <<< (k + 1) = Nat.bit false (y <<< k) := by
      simp [Nat.shiftLeft_eq, Nat.bit_val, pow_succ]
      ring
    rw [h1, Nat.xor_bit, ih y c.div2 hdiv2]
    have h3 : 2 * c.div2 + c.bodd.toNat = c := by
      conv_rhs => rw [← Nat.bit_decomp c]
      rw [Nat.bit_val]
    have hbne : (false != c.bodd) = c.bodd := by cases c.bodd <;> rfl
    simp only [Nat.bit_val, hbne]
    rw [pow_succ, ← mul_assoc]
    omega

theorem nat_xor_left_comm (a b c : Nat) : a ^^^ (b ^^^ c) = b ^^^ (a ^^^ c) := by
  rw [← Nat.xor_assoc, Nat.xor_comm a b, Nat.xor_assoc]

theorem gterm_testBit (b i g : Nat) : gterm b i g = if Nat.testBit b i then g else 0 := by
  unfold gterm
  rw [Nat.and_one_is_mod, Nat.testBit_to_div_mod, Nat.shiftRight_eq_div_pow]
  rcases Nat.mod_two_eq_zero_or_one (b / 2 ^ i) with h | h <;> simp [h]

theorem gterm_xor (a b i g : Nat) : gterm (a ^^^ b) i g = gterm a i g ^^^ gterm b i g := by
  rw [gterm_testBit, gterm_testBit, gterm_testBit, Nat.testBit_xor]
  cases ha : Nat.testBit a i <;> cases hb : Nat.testBit b i <;>
    simp [Nat.xor_self, Nat.xor_zero, Nat.zero_xor]

theorem xor_shiftLeft (a b k : Nat) : (a ^^^ b) <<< k = (a <<< k) ^^^ (b <<< k) := by
  apply Nat.eq_of_testBit_eq
  intro j
  simp only [Nat.testBit_shiftLeft, Nat.testBit_xor]
  by_cases hj : j ≥ k <;> simp [hj]

theorem xor_shiftRight (a b k : Nat) : (a ^^^ b) >>> k = (a >>> k) ^^^ (b >>> k) := by
  apply Nat.eq_of_testBit_eq
  intro j
  simp [Nat.testBit_shiftRight, Nat.testBit_xor]

theorem step_eq_L_xor (chk v : Nat) :
    bech32PolymodStep chk v = bech32PolymodStep chk 0 ^^^ v := by
  unfold bech32PolymodStep
  simp only [Nat.xor_zero]
  simp [Nat.xor_assoc, Nat.xor_comm, nat_xor_left_comm]

theorem L_linear (a b : Nat) :
    bech32PolymodStep (a ^^^ b) 0 = bech32PolymodStep a 0 ^^^ bech32PolymodStep b 0 := by
  unfold bech32PolymodStep
  simp only [Nat.xor_zero]
  rw [Nat.and_xor_distrib_right, xor_shiftLeft, xor_shiftRight]
  rw [gterm_xor, gterm_xor, gterm_xor, gterm_xor, gterm_xor]
  simp [Nat.xor_assoc, Nat.xor_comm, nat_xor_left_comm]

theorem L_small (x : Nat) (hx : x < 2 ^ 25) : bech32PolymodStep x 0 = x <<< 5 := by
  unfold bech32PolymodStep
  have hmask : x &&& 0x1ffffff = x := by
    rw [show (0x1ffffff : Nat) = 2 ^ 25 - 1 from rfl, land_mask, Nat.mod_eq_of_lt hx]
  have hb : x >>> 25 = 0 := by
    rw [Nat.shiftRight_eq_div_pow]
    exact Nat.div_eq_of_lt hx
  rw [hmask, hb]
  simp [gterm]

theorem gterm_lt (b i g : Nat) (hg : g < 2 ^ 30) : gterm b i g < 2 ^ 30 := by
  unfold gterm
  split
  · exact hg
  · positivity

theorem L_lt (x : Nat) : bech32PolymodStep x 0 < 2 ^ 30 := by
  unfold bech32PolymodStep
  have h1 : (x &&& 0x1ffffff) <<< 5 < 2 ^ 30 := by
    have h2 : x &&& 0x1ffffff ≤ 0x1ffffff := Nat.and_le_right
    rw [Nat.shiftLeft_eq]
    norm_num
    omega
  refine Nat.xor_lt_two_pow (Nat.xor_lt_two_pow (Nat.xor_lt_two_pow (Nat.xor_lt_two_pow
    (Nat.xor_lt_two_pow ?_ ?_) ?_) ?_) ?_) ?_
  · simpa using h1
  all_goals exact gterm_lt _ _ _ (by norm_num)

theorem step_shift (X c v : Nat) (hc : c < 2 ^ 25) :
    bech32PolymodStep (X ^^^ c) v = bech32PolymodStep X 0 ^^^ ((c <<< 5) ^^^ v) := by
  rw [step_eq_L_xor _ v, L_linear, L_small c hc, Nat.xor_assoc]

theorem shiftLeft5_lt (y m : Nat) (h : y < 2 ^ m) : y <<< 5 < 2 ^ (m + 5) := by
  rw [Nat.shiftLeft_eq, pow_add]
  have h32 : (0 : Nat) < 2 ^ 5 := by norm_num
  exact Nat.mul_lt_mul_of_lt_of_le h (le_refl _) h32

theorem polymod_step6_create (Q : Nat) :
    bech32PolymodStep (bech32PolymodStep (bech32PolymodStep (bech32PolymodStep (bech32PolymodStep
      (bech32PolymodStep Q
        ((((bech32PolymodStep (bech32PolymodStep (bech32PolymodStep (bech32PolymodStep
          (bech32PolymodStep (bech32PolymodStep Q 0) 0) 0) 0) 0) 0) ^^^ 1) >>> 25) &&& 31))
        ((((bech32PolymodStep (bech32PolymodStep (bech32PolymodStep (bech32PolymodStep
          (bech32PolymodStep (bech32PolymodStep Q 0) 0) 0) 0) 0) 0) ^^^ 1) >>> 20) &&& 31))
        ((((bech32PolymodStep (bech32PolymodStep (bech32PolymodStep (bech32PolymodStep
          (bech32PolymodStep (bech32PolymodStep Q 0) 0) 0) 0) 0) 0) ^^^ 1) >>> 15) &&& 31))
        ((((bech32PolymodStep (bech32PolymodStep (bech32PolymodStep (bech32PolymodStep
          (bech32PolymodStep (bech32PolymodStep Q 0) 0) 0) 0) 0) 0) ^^^ 1) >>> 10) &&& 31))
        ((((bech32PolymodStep (bech32PolymodStep (bech32PolymodStep (bech32PolymodStep
          (bech32PolymodStep (bech32PolymodStep Q 0) 0) 0) 0) 0) 0) ^^^ 1) >>> 5) &&& 31))
        (((bech32PolymodStep (bech32PolymodStep (bech32PolymodStep (bech32PolymodStep
          (bech32PolymodStep (bech32PolymodStep Q 0) 0) 0) 0) 0) 0) ^^^ 1) &&& 31) = 1 := by
  set P := bech32PolymodStep (bech32PolymodStep (bech32PolymodStep (bech32PolymodStep
    (bech32PolymodStep (bech32PolymodStep Q 0) 0) 0) 0) 0) 0 with hP
  set pm := P ^^^ 1 with hpm
  have hP30 : P < 2 ^ 30 := L_lt _
  have hpm30 : pm < 2 ^ 30 := Nat.xor_lt_two_pow hP30 (by norm_num)
  have hle : ∀ s : Nat, (pm >>> s) &&& 31 < 2 ^ 5 := by
    intro s
    have := Nat.and_le_right (n := pm >>> s) (m := 31)
    norm_num
    omega
  have h525 : ∀ x : Nat, x < 2 ^ 5 → x < 2 ^ 25 := by intro x hx; norm_num at *; omega
  have hd1 : ((pm >>> 25) &&& 31) <<< 5 ^^^ ((pm >>> 20) &&& 31) < 2 ^ 10 :=
    Nat.xor_lt_two_pow (by simpa using shiftLeft5_lt _ 5 (hle 25))
      (by have := hle 20; norm_num at *; omega)
  have hd2 : (((pm >>> 25) &&& 31) <<< 5 ^^^ ((pm >>> 20) &&& 31)) <<< 5 ^^^
      ((pm >>> 15) &&& 31) < 2 ^ 15 :=
    Nat.xor_lt_two_pow (by simpa using shiftLeft5_lt _ 10 hd1)
      (by have := hle 15; norm_num at *; omega)
  have hd3 : ((((pm >>> 25) &&& 31) <<< 5 ^^^ ((pm >>> 20) &&& 31)) <<< 5 ^^^
      ((pm >>> 15) &&& 31)) <<< 5 ^^^ ((pm >>> 10) &&& 31) < 2 ^ 20 :=
    Nat.xor_lt_two_pow (by simpa using shiftLeft5_lt _ 15 hd2)
      (by have := hle 10; norm_num at *; omega)
  have hd4 : (((((pm >>> 25) &&& 31) <<< 5 ^^^ ((pm >>> 20) &&& 31)) <<< 5 ^^^
      ((pm >>> 15) &&& 31)) <<< 5 ^^^ ((pm >>> 10) &&& 31)) <<< 5 ^^^
      ((pm >>> 5) &&& 31) < 2 ^ 25 :=
    Nat.xor_lt_two_pow (by simpa using shiftLeft5_lt _ 20 hd3)
      (by have := hle 5; norm_num at *; omega)
  rw [step_eq_L_xor Q ((pm >>> 25) &&& 31)]
  rw [step_shift _ _ _ (h525 _ (hle 25))]
  rw [step_shift _ _ _ (by norm_num at hd1 ⊢; omega)]
  rw [step_shift _ _ _ (by norm_num at hd2 ⊢; omega)]
  rw [step_shift _ _ _ (by norm_num at hd3 ⊢; omega)]
  rw [step_shift _ _ _ hd4]
  have hD : (((((((pm >>> 25) &&& 31) <<< 5 ^^^ ((pm >>> 20) &&& 31)) <<< 5 ^^^
      ((pm >>> 15) &&& 31)) <<< 5 ^^^ ((pm >>> 10) &&& 31)) <<< 5 ^^^
      ((pm >>> 5) &&& 31)) <<< 5) ^^^ (pm &&& 31) = pm := by
    rw [shiftLeft_xor_small 5 _ _ (by have := Nat.and_le_right (n := pm) (m := 31); norm_num; omega)]
    rw [shiftLeft_xor_small 5 _ _ (by have := hle 5; norm_num at *; omega)]
    rw [shiftLeft_xor_small 5 _ _ (by have := hle 10; norm_num at *; omega)]
    rw [shiftLeft_xor_small 5 _ _ (by have := hle 15; norm_num at *; omega)]
    rw [shiftLeft_xor_small 5 _ _ (by have := hle 20; norm_num at *; omega)]
    simp only [Nat.shiftRight_eq_div_pow, show (31 : Nat) = 2 ^ 5 - 1 from rfl, land_mask]
    norm_num
    omega
  rw [hD, hpm, ← Nat.xor_assoc, Nat.xor_self, Nat.zero_xor]

theorem bech32_verify_create (hrp : List Char) (data : List Nat) :
    bech32VerifyChecksum hrp (data ++ bech32CreateChecksum hrp data) = true := by
  unfold bech32VerifyChecksum bech32CreateChecksum bech32Polymod
  dsimp only
  simp only [← List.append_assoc, List.foldl_append, List.foldl_cons, List.foldl_nil]
  rw [polymod_step6_create]
  rfl

/-! ## Decoding the Bech32 encoding -/

theorem bech32CharOf_ne_one : ∀ d, d < 32 → bech32CharOf d ≠ '1' := by decide

theorem bech32_char_facts : ∀ d, d < 32 →
    (isDigitCh (bech32CharOf d) || isLowerCh (bech32CharOf d) || isUpperCh (bech32CharOf d))
      = true ∧
    ¬(bech32CharOf d = '1' ∨ bech32CharOf d = 'b' ∨ bech32CharOf d = 'i' ∨
      bech32CharOf d = 'o') ∧
    bech32ValOf (lowerCh (bech32CharOf d)) = some d ∧
    isUpperCh (bech32CharOf d) = false := by decide

theorem one_not_mem_map_charOf (vs : List Nat) (h : ∀ v ∈ vs, v < 32) :
    '1' ∉ vs.map bech32CharOf := by
  intro hmem
  rcases List.mem_map.1 hmem with ⟨v, hv, heq⟩
  exact bech32CharOf_ne_one v (h v hv) heq

theorem rfind1_none (l : List Char) (h : '1' ∉ l) : rfind1 l = none := by
  induction l with
  | nil => rfl
  | cons c t ih =>
    have hc : c ≠ '1' := by intro he; exact h (by simp [he])
    simp only [rfind1, ih (fun hm => h (by simp [hm]))]
    rw [if_neg hc]

theorem rfind1_append (xs ys : List Char) (hys : '1' ∉ ys) :
    rfind1 (xs ++ '1' :: ys) = some xs.length := by
  induction xs with
  | nil =>
    simp only [List.nil_append, rfind1, rfind1_none ys hys]
    rfl
  | cons c t ih =>
    simp only [List.cons_append, rfind1, List.append_eq, ih]
    rfl

theorem bech32CreateChecksum_lt (hrp : List Char) (data : List Nat) :
    ∀ x ∈ bech32CreateChecksum hrp data, x < 32 := by
  intro x hx
  unfold bech32CreateChecksum at hx
  simp only [List.mem_cons, List.not_mem_nil, or_false] at hx
  have h31 : ∀ y : Nat, y &&& 31 ≤ 31 := fun y => Nat.and_le_right
  rcases hx with h | h | h | h | h | h <;> subst h <;>
    exact Nat.lt_of_le_of_lt (h31 _) (by norm_num)

theorem bech32CreateChecksum_length (hrp : List Char) (data : List Nat) :
    (bech32CreateChecksum hrp data).length = 6 := rfl

theorem bech32CheckData_map (vs : List Nat) : ∀ hl : Bool, (∀ v ∈ vs, v < 32) →
    ∃ hl2, bech32CheckData (vs.map bech32CharOf) hl false = .ok (vs, hl2, false) := by
  induction vs with
  | nil => intro hl _; exact ⟨hl, rfl⟩
  | cons v t ih =>
    intro hl hlt
    obtain ⟨halnum, hexcl, hval, hupper⟩ := bech32_char_facts v (hlt v (by simp))
    obtain ⟨hl2, ih2⟩ := ih (hl || isLowerCh (bech32CharOf v)) (fun x hx => hlt x (by simp [hx]))
    refine ⟨hl2, ?_⟩
    simp only [List.map_cons, bech32CheckData]
    rw [if_neg (by simp [halnum]), if_neg hexcl, hval]
    dsimp only
    rw [hupper]
    simp only [Bool.or_false]
    rw [ih2]

theorem bech32Decode_bech32Encode (hrp : List Char) (data : List Nat) (hl0 : Bool)
    (hhrp1 : '1' ∉ hrp) (hlen1 : 1 ≤ hrp.length)
    (hck : bech32CheckHrp hrp false false = .ok (hrp, hl0, false))
    (hdlt : ∀ v ∈ data, v < 32) :
    bech32Decode (bech32Encode hrp data) = .ok (hrp, data) := by
  have hall : ∀ v ∈ data ++ bech32CreateChecksum hrp data, v < 32 := by
    intro v hv
    rcases List.mem_append.1 hv with h | h
    · exact hdlt v h
    · exact bech32CreateChecksum_lt hrp data v h
  have hone : '1' ∉ (data ++ bech32CreateChecksum hrp data).map bech32CharOf :=
    one_not_mem_map_charOf _ hall
  unfold bech32Encode bech32Decode
  rw [rfind1_append hrp _ hone]
  dsimp only
  have htake : (hrp ++ '1' :: (data ++ bech32CreateChecksum hrp data).map bech32CharOf).take
      hrp.length = hrp := List.take_left hrp _
  have hdrop : (hrp ++ '1' :: (data ++ bech32CreateChecksum hrp data).map bech32CharOf).drop
      (hrp.length + 1) = (data ++ bech32CreateChecksum hrp data).map bech32CharOf := by
    rw [← List.drop_drop 1 hrp.length, List.drop_left]
    rfl
  rw [htake, hdrop]
  have hdlen : ((data ++ bech32CreateChecksum hrp data).map bech32CharOf).length
      = data.length + 6 := by
    rw [List.length_map, List.length_append, bech32CreateChecksum_length]
  rw [if_neg (by rw [hdlen]; omega)]
  rw [hck]
  dsimp only
  obtain ⟨hl2, hcd⟩ := bech32CheckData_map (data ++ bech32CreateChecksum hrp data) hl0 hall
  rw [hcd]
  dsimp only
  rw [Bool.and_false]
  rw [if_neg (by simp)]
  rw [if_pos (by exact bech32_verify_create hrp data)]
  have hlen2 : (data ++ bech32CreateChecksum hrp data).length - 6 = data.length := by
    rw [List.length_append, bech32CreateChecksum_length]
    omega
  rw [hlen2, List.take_left data _]

theorem regroup85_lt : ∀ (k : Nat) (bs : List Nat), bs.length ≤ k → (∀ x ∈ bs, x < 256) →
    ∀ u ∈ regroup85 bs, u < 32 := by
  intro k
  induction k with
  | zero =>
    intro bs hlen _
    have : bs = [] := List.length_eq_zero.1 (by omega)
    subst this
    simp [regroup85]
  | succ k ih =>
    intro bs hlen hlt
    rcases bs with _ | ⟨b0, _ | ⟨b1, _ | ⟨b2, _ | ⟨b3, _ | ⟨b4, rest⟩⟩⟩⟩⟩ <;>
      try simp [regroup85]
    have h0 : b0 < 256 := hlt b0 (by simp)
    have h1 : b1 < 256 := hlt b1 (by simp)
    have h2 : b2 < 256 := hlt b2 (by simp)
    have h3 : b3 < 256 := hlt b3 (by simp)
    have h4 : b4 < 256 := hlt b4 (by simp)
    refine ⟨by omega, by omega, by omega, by omega, by omega, by omega, by omega, by omega, ?_⟩
    refine ih rest ?_ (fun x hx => hlt x (by simp [hx]))
    simp only [List.length_cons] at hlen
    omega

theorem regroup85_length : ∀ (n : Nat) (bs : List Nat), bs.length = 5 * n →
    (regroup85 bs).length = 8 * n := by
  intro n
  induction n with
  | zero =>
    intro bs hlen
    have : bs = [] := List.length_eq_zero.1 (by omega)
    subst this
    rfl
  | succ n ih =>
    intro bs hlen
    rcases bs with _ | ⟨b0, _ | ⟨b1, _ | ⟨b2, _ | ⟨b3, _ | ⟨b4, rest⟩⟩⟩⟩⟩ <;>
      simp only [List.length_cons, List.length_nil] at hlen <;> try omega
    rw [regroup85]
    simp only [List.length_cons]
    rw [ih rest (by omega)]
    omega

theorem toBase32_eq_regroup (n : Nat) (bs : List Nat) (hlen : bs.length = 5 * n)
    (hlt : ∀ x ∈ bs, x < 256) : toBase32 bs = regroup85 bs := by
  unfold toBase32 convertBits
  rw [show (1 <<< 5 - 1 : Nat) = 31 from rfl, convert85_eq n bs 0 hlen hlt]
  rfl

theorem fromBase32_toBase32 (n : Nat) (bs : List Nat) (hlen : bs.length = 5 * n)
    (hlt : ∀ x ∈ bs, x < 256) : fromBase32 (toBase32 bs) = .ok bs := by
  rw [toBase32_eq_regroup n bs hlen hlt]
  unfold fromBase32 convertBits
  rw [show (1 <<< 8 - 1 : Nat) = 255 from rfl]
  exact convert58_eq n bs 0 hlen hlt

theorem from_str_bech32 (hrp : List Char) (net : BtcForkNetwork) (prog : List Nat) (hl0 : Bool)
    (hhrp1 : '1' ∉ hrp) (hlen1 : 1 ≤ hrp.length)
    (hck : bech32CheckHrp hrp false false = .ok (hrp, hl0, false))
    (hnet : network_from_coin (String.mk hrp) = some net)
    (hplen : prog.length = 20) (hplt : ∀ x ∈ prog, x < 256) :
    BtcForkAddress.from_str (String.mk (bech32Encode hrp (0 :: toBase32 prog))) =
      .ok ⟨net, .WitnessProgram 0 prog⟩ := by
  have hdata_lt : ∀ v ∈ (0 :: toBase32 prog), v < 32 := by
    intro v hv
    rcases List.mem_cons.1 hv with h1 | h1
    · omega
    · rw [toBase32_eq_regroup 4 prog (by omega) hplt] at h1
      exact regroup85_lt prog.length prog le_rfl hplt v h1
  have hall : ∀ v ∈ (0 :: toBase32 prog) ++ bech32CreateChecksum hrp (0 :: toBase32 prog),
      v < 32 := by
    intro v hv
    rcases List.mem_append.1 hv with h1 | h1
    · exact hdata_lt v h1
    · exact bech32CreateChecksum_lt hrp _ v h1
  have hone : '1' ∉ ((0 :: toBase32 prog) ++
      bech32CreateChecksum hrp (0 :: toBase32 prog)).map bech32CharOf :=
    one_not_mem_map_charOf _ hall
  have hdata : (String.mk (bech32Encode hrp (0 :: toBase32 prog))).data
      = bech32Encode hrp (0 :: toBase32 prog) := rfl
  have hbn : bech32_network (String.mk (bech32Encode hrp (0 :: toBase32 prog))) = some net := by
    unfold bech32_network
    rw [hdata]
    unfold bech32Encode
    rw [rfind1_append hrp _ hone]
    dsimp only
    rw [List.take_left hrp _]
    exact hnet
  have hdec := bech32Decode_bech32Encode hrp (0 :: toBase32 prog) hl0 hhrp1 hlen1 hck hdata_lt
  unfold BtcForkAddress.from_str
  rw [hbn, hdata, hdec]
  dsimp only
  rw [if_neg (by simp)]
  rw [fromBase32_toBase32 4 prog (by omega) hplt]
  dsimp only
  rw [if_neg (by omega), if_neg (by omega), if_neg (by omega)]

/-! ## Named registry rows and shared concrete data -/

/-- The registry row for Litecoin mainnet. -/
def ltcNet : BtcForkNetwork :=
  ⟨"LTC", "ltc", 0x30, 0x32, [0x04, 0x88, 0xB2, 0x1E], [0x04, 0x88, 0xAD, 0xE4]⟩

/-- The registry row for the Litecoin testnet. -/
def ltcTestNet : BtcForkNetwork :=
  ⟨"LTC-TESTNET", "ltc", 0x6f, 0x3a, [0x04, 0x88, 0xB2, 0x1E], [0x04, 0x88, 0xAD, 0xE4]⟩

/-- The registry row for Bitcoin mainnet. -/
def btcNet : BtcForkNetwork :=
  ⟨"BTC", "bc", 0x0, 0x05, [0x04, 0x88, 0xB2, 0x1E], [0x04, 0x88, 0xAD, 0xE4]⟩

/-- The registry row for the Bitcoin testnet. -/
def btcTestNet : BtcForkNetwork :=
  ⟨"BTC-TESTNET", "bc", 0x6f, 0xc4, [0x04, 0x88, 0xB2, 0x1E], [0x04, 0x88, 0xAD, 0xE4]⟩

/-- The registry row for Bitcoin Cash. -/
def bchNet : BtcForkNetwork :=
  ⟨"BCH", "bitcoincash", 0x0, 0x05, [0x04, 0x88, 0xB2, 0x1E], [0x04, 0x88, 0xAD, 0xE4]⟩

/-- The lowercased identifiers `networkOfChars` matches. -/
def registryIds : List (List Char) :=
  [['l', 't', 'c'], ['l', 't', 'c', '-', 't', 'e', 's', 't', 'n', 'e', 't'],
   ['b', 't', 'c'], ['b', 'c'], ['b', 't', 'c', '-', 't', 'e', 's', 't', 'n', 'e', 't'],
   ['b', 'i', 't', 'c', 'o', 'i', 'n', 'c', 'a', 's', 'h'], ['b', 'c', 'h']]

/-- The serialized compressed public key used by the repository's own tests. -/
def testKeyBytes : List Nat :=
  [0x02, 0x50, 0x6b, 0xc1, 0xdc, 0x09, 0x93, 0x58, 0xe5, 0x13, 0x72, 0x92, 0xf4, 0xef,
   0xdd, 0x57, 0xe4, 0x00, 0xf2, 0x9b, 0xa5, 0x13, 0x2a, 0xa5, 0xd1, 0x2b, 0x18, 0xda,
   0xc1, 0xc1, 0xf6, 0xaa, 0xba]

/-- The test key as a parsed public key. -/
def testKey : PubKey := ⟨testKeyBytes⟩

/-- A 20-byte hash whose version-`0x30` Base58Check encoding starts with
`LTc1`, so the text before its last `'1'` is a registered identifier. -/
def divertingHash : List Nat :=
  [91, 236, 159, 205, 83, 74, 135, 163, 173, 222, 131, 254, 244, 171, 160, 30,
   190, 245, 94, 13]

/-- The three payload families an address can carry. -/
inductive PayloadKind where
  | pubkeyHash
  | scriptHash
  | witnessProgram
deriving DecidableEq

/-- Family of a payload. -/
def Payload.kind : Payload → PayloadKind
  | .PubkeyHash _ => .pubkeyHash
  | .ScriptHash _ => .scriptHash
  | .WitnessProgram _ _ => .witnessProgram

/-- Coin identifier a successful decode reports. -/
def rcoin : RResult BtcForkAddress → Option String
  | .ok a => some a.network.coin
  | _ => none

/-- A keystore holding no chain accounts. -/
def emptyKeystore : HdKeystore :=
  ⟨fun _ => none, fun _ _ => .error .InvalidPassword⟩

/-- The Bech32 arm of `from_str` (the body of its `some` branch). -/
def bech32DecodeToAddress (s : String) (network : BtcForkNetwork) : RResult BtcForkAddress :=
  match bech32Decode s.data with
  | .error e => .err (.Bech32 e)
  | .ok (_, payload) =>
    if payload.length = 0 then .err .EmptyBech32Payload
    else
      match payload with
      | [] => .panicked
      | v :: p5 =>
        match fromBase32 p5 with
        | .error e => .err (.Bech32 e)
        | .ok program =>
          if v > 16 then .err (.InvalidWitnessVersion v)
          else if program.length < 2 ∨ program.length > 40 then
            .err (.InvalidWitnessProgramLength program.length)
          else if v = 0 ∧ program.length ≠ 20 ∧ program.length ≠ 32 then
            .err (.InvalidSegwitV0ProgramLength program.length)
          else .ok ⟨network, .WitnessProgram v program⟩

/-- The Base58Check arm of `from_str` (the body of its `none` branch). -/
def base58DecodeToAddress (s : String) : RResult BtcForkAddress :=
  match _decode_base58 s.data with
  | .error e => .err e
  | .ok data =>
    match data with
    | [] => .panicked
    | v :: hashBytes =>
      if v = 0 then mkBase58Payload "btc" .PubkeyHash hashBytes
      else if v = 5 then mkBase58Payload "btc" .ScriptHash hashBytes
      else if v = 0x30 then mkBase58Payload "ltc" .PubkeyHash hashBytes
      else if v = 0x32 then mkBase58Payload "ltc" .ScriptHash hashBytes
      else if v = 0x3a then mkBase58Payload "ltc-testnet" .ScriptHash hashBytes
      else if v = 111 then mkBase58Payload "btc-testnet" .PubkeyHash hashBytes
      else if v = 196 then mkBase58Payload "btc-testnet" .ScriptHash hashBytes
      else .err (.Base58 (.InvalidVersion [v]))

/-! ## Helper lemmas for the claim theorems -/

theorem mkBase58Payload_ok (coinId : String) (net : BtcForkNetwork)
    (mk : List Nat → Payload) (hb : List Nat)
    (hnet : network_from_coin coinId = some net) (hlen : hb.length = 20) :
    mkBase58Payload coinId mk hb = .ok ⟨net, mk hb⟩ := by
  unfold mkBase58Payload
  rw [hnet]
  dsimp only
  rw [if_pos hlen]

theorem _decode_base58_ok_length (addr : List Char) (data : List Nat)
    (h : _decode_base58 addr = .ok data) : data.length = 21 := by
  unfold _decode_base58 at h
  by_cases h1 : addr.length > 50
  · rw [if_pos h1] at h
    cases h
  · rw [if_neg h1] at h
    cases hfc : b58FromCheck addr with
    | error e => rw [hfc] at h; cases h
    | ok d =>
      rw [hfc] at h
      dsimp only at h
      by_cases h2 : d.length ≠ 21
      · rw [if_pos h2] at h
        cases h
      · rw [if_neg h2] at h
        injection h with h3
        subst h3
        omega

theorem from_str_some (s : String) (net : BtcForkNetwork)
    (h : bech32_network s = some net) :
    BtcForkAddress.from_str s = bech32DecodeToAddress s net := by
  unfold BtcForkAddress.from_str
  rw [h]
  rfl

theorem from_str_none (s : String) (h : bech32_network s = none) :
    BtcForkAddress.from_str s = base58DecodeToAddress s := by
  unfold BtcForkAddress.from_str
  rw [h]
  rfl

theorem from_str_ne_panicked (s : String) : BtcForkAddress.from_str s ≠ .panicked := by
  unfold BtcForkAddress.from_str
  cases hbn : bech32_network s with
  | some network =>
    dsimp only
    cases hdec : bech32Decode s.data with
    | error e => nofun
    | ok pr =>
      obtain ⟨h2, payload⟩ := pr
      dsimp only
      by_cases hlen : payload.length = 0
      · rw [if_pos hlen]; nofun
      · rw [if_neg hlen]
        cases payload with
        | nil => simp at hlen
        | cons v p5 =>
          dsimp only
          cases hfb : fromBase32 p5 with
          | error e => nofun
          | ok program =>
            dsimp only
            split_ifs <;> nofun
  | none =>
    dsimp only
    cases hdb : _decode_base58 s.data with
    | error e => nofun
    | ok data =>
      have h21 := _decode_base58_ok_length s.data data hdb
      cases data with
      | nil => simp at h21
      | cons v hashBytes =>
        have h20 : hashBytes.length = 20 := by
          simp only [List.length_cons] at h21
          omega
        dsimp only
        split_ifs
        · rw [mkBase58Payload_ok "btc" btcNet _ _ (by decide) h20]; nofun
        · rw [mkBase58Payload_ok "btc" btcNet _ _ (by decide) h20]; nofun
        · rw [mkBase58Payload_ok "ltc" ltcNet _ _ (by decide) h20]; nofun
        · rw [mkBase58Payload_ok "ltc" ltcNet _ _ (by decide) h20]; nofun
        · rw [mkBase58Payload_ok "ltc-testnet" ltcTestNet _ _ (by decide) h20]; nofun
        · rw [mkBase58Payload_ok "btc-testnet" btcTestNet _ _ (by decide) h20]; nofun
        · rw [mkBase58Payload_ok "btc-testnet" btcTestNet _ _ (by decide) h20]; nofun
        · nofun

theorem insertField_lookup_ne (fields : List (String × Json)) (key k : String) (v : Json)
    (hk : k ≠ key) : (insertField fields key v).lookup k = fields.lookup k := by
  have hbeq : (k == key) = false := by simp [hk]
  induction fields with
  | nil => simp only [insertField, List.lookup, hbeq]
  | cons p rest ih =>
    obtain ⟨k0, v0⟩ := p
    by_cases h0 : k0 = key
    · subst h0
      simp only [insertField, if_pos rfl, List.lookup, hbeq]
    · simp only [insertField, if_neg h0, List.lookup, ih]

set_option maxRecDepth 40000
set_option maxHeartbeats 4000000

/-! ## The claims -/

/-- Claim C1: decoding the textual encoding of a built address yields the
original address, network included (`decode(encode(addr)) == addr`).  As a
universal statement over every registered network this is false — the
registry's version bytes are shared across rows (Bitcoin Cash reuses
Bitcoin's `0x00`/`0x05`), so a Bitcoin Cash legacy encoding decodes to the
Bitcoin row (`C1_roundtrip_counterexample`).  This theorem is the repaired
statement: on the `btc` and `ltc` rows the round-trip holds for all three
script kinds, where the legacy pay-to-pubkey-hash case on `ltc` additionally
needs the encoded text not to split at a `'1'` into a registered hrp (its
`0x30` encodings start with `L` and can shadow the `ltc` hrp). -/
theorem C1_roundtrip (pk : PubKey) (coin : String) (net : BtcForkNetwork)
    (hcoin : coin = "btc" ∨ coin = "ltc")
    (hnet : network_from_coin coin = some net) :
    (BtcForkAddress.from_str (BtcForkAddress.toText (BtcForkAddress.p2wpkh pk net))
        = .ok (BtcForkAddress.p2wpkh pk net)) ∧
    (BtcForkAddress.from_str (BtcForkAddress.toText (BtcForkAddress.p2shwpkh pk net))
        = .ok (BtcForkAddress.p2shwpkh pk net)) ∧
    ((coin = "btc" ∨
        bech32_network (BtcForkAddress.toText (BtcForkAddress.p2pkh pk net)) = none) →
      BtcForkAddress.from_str (BtcForkAddress.toText (BtcForkAddress.p2pkh pk net))
        = .ok (BtcForkAddress.p2pkh pk net)) := by
  rcases hcoin with hc | hc
  · subst hc
    have hbtc : net = btcNet := by
      have h2 := (show network_from_coin "btc" = some btcNet from by decide).symm.trans hnet
      exact (Option.some.inj h2).symm
    subst hbtc
    refine ⟨?_, ?_, ?_⟩
    · show BtcForkAddress.from_str
          (String.mk (bech32Encode "bc".data (0 :: toBase32 (hash160 pk.bytes)))) = _
      rw [from_str_bech32 "bc".data btcNet (hash160 pk.bytes) true (by decide) (by decide)
        (by decide) (by decide) (hash160_length _) (hash160_lt _)]
      rfl
    · show BtcForkAddress.from_str
          (String.mk (b58EncodeCheck (5 :: hash160 (0x00 :: 0x14 :: hash160 pk.bytes)))) = _
      obtain ⟨t, ht⟩ := b58EncodeCheck_head_digit 5 _ (hash160_length _) (hash160_lt _)
        2 (by norm_num) (by norm_num) (by decide) (by decide)
      have hdiv : bech32_network
          (String.mk (b58EncodeCheck (5 :: hash160 (0x00 :: 0x14 :: hash160 pk.bytes))))
          = none := by
        rw [ht, show b58Char 2 = '3' from by decide]
        exact bech32_network_none_of_head '3' t (by decide) (by decide)
      rw [from_str_b58EncodeCheck 5 _ (by norm_num) (hash160_length _) (hash160_lt _) hdiv]
      rw [if_neg (by norm_num), if_pos rfl]
      exact mkBase58Payload_ok "btc" btcNet _ _ (by decide) (hash160_length _)
    · intro _
      show BtcForkAddress.from_str (String.mk (b58EncodeCheck (0 :: hash160 pk.bytes))) = _
      obtain ⟨t, ht⟩ := b58EncodeCheck_head_zero (hash160 pk.bytes)
      have hdiv : bech32_network (String.mk (b58EncodeCheck (0 :: hash160 pk.bytes)))
          = none := by
        rw [ht]
        exact bech32_network_none_of_head '1' t (by decide) (by decide)
      rw [from_str_b58EncodeCheck 0 _ (by norm_num) (hash160_length _) (hash160_lt _) hdiv]
      rw [if_pos rfl]
      exact mkBase58Payload_ok "btc" btcNet _ _ (by decide) (hash160_length _)
  · subst hc
    have hltc : net = ltcNet := by
      have h2 := (show network_from_coin "ltc" = some ltcNet from by decide).symm.trans hnet
      exact (Option.some.inj h2).symm
    subst hltc
    refine ⟨?_, ?_, ?_⟩
    · show BtcForkAddress.from_str
          (String.mk (bech32Encode "ltc".data (0 :: toBase32 (hash160 pk.bytes)))) = _
      rw [from_str_bech32 "ltc".data ltcNet (hash160 pk.bytes) true (by decide) (by decide)
        (by decide) (by decide) (hash160_length _) (hash160_lt _)]
      rfl
    · show BtcForkAddress.from_str
          (String.mk (b58EncodeCheck (0x32 :: hash160 (0x00 :: 0x14 :: hash160 pk.bytes)))) = _
      obtain ⟨t, ht⟩ := b58EncodeCheck_head_digit 0x32 _ (hash160_length _) (hash160_lt _)
        20 (by norm_num) (by norm_num) (by decide) (by decide)
      have hdiv : bech32_network
          (String.mk (b58EncodeCheck (0x32 :: hash160 (0x00 :: 0x14 :: hash160 pk.bytes))))
          = none := by
        rw [ht, show b58Char 20 = 'M' from by decide]
        exact bech32_network_none_of_head 'M' t (by decide) (by decide)
      rw [from_str_b58EncodeCheck 0x32 _ (by norm_num) (hash160_length _) (hash160_lt _) hdiv]
      rw [if_neg (by norm_num), if_neg (by norm_num), if_neg (by norm_num), if_pos rfl]
      exact mkBase58Payload_ok "ltc" ltcNet _ _ (by decide) (hash160_length _)
    · intro hno
      rcases hno with hno | hdiv
      · exact absurd hno (by decide)
      · show BtcForkAddress.from_str
            (String.mk (b58EncodeCheck (0x30 :: hash160 pk.bytes))) = _
        rw [from_str_b58EncodeCheck 0x30 _ (by norm_num) (hash160_length _)
          (hash160_lt _) hdiv]
        rw [if_neg (by norm_num), if_neg (by norm_num), if_pos rfl]
        exact mkBase58Payload_ok "ltc" ltcNet _ _ (by decide) (hash160_length _)

/-- Closed instance of `C1_roundtrip`: the test key's native-witness and
wrapped-witness addresses on the Bitcoin row round-trip. -/
theorem C1_roundtrip_witness :
    (BtcForkAddress.from_str (BtcForkAddress.toText (BtcForkAddress.p2wpkh testKey btcNet))
        = .ok (BtcForkAddress.p2wpkh testKey btcNet)) ∧
    (BtcForkAddress.from_str (BtcForkAddress.toText (BtcForkAddress.p2shwpkh testKey btcNet))
        = .ok (BtcForkAddress.p2shwpkh testKey btcNet)) :=
  ⟨(C1_roundtrip testKey "btc" btcNet (Or.inl rfl) (by decide)).1,
   (C1_roundtrip testKey "btc" btcNet (Or.inl rfl) (by decide)).2.1⟩

/-- The round-trip of C1 fails as stated: a Bitcoin Cash wrapped-witness
address decodes to the Bitcoin row, because the registry shares the `0x05`
version byte between the two networks. -/
theorem C1_roundtrip_counterexample :
    network_from_coin "bch" = some bchNet ∧
    BtcForkAddress.from_str
        (BtcForkAddress.toText (BtcForkAddress.p2shwpkh testKey bchNet))
      = .ok ⟨btcNet, (BtcForkAddress.p2shwpkh testKey bchNet).payload⟩ ∧
    btcNet ≠ bchNet :=
  ⟨by decide, by decide, by decide⟩

/-- Claim C2: the seven registered version bytes map a 21-byte Base58Check
payload to exactly the table's `(network, kind)` pair, and every other byte
fails with an invalid-version error carrying that byte.  The table is as the
specification writes it, but the statement needs one repair: it holds only
when the encoded text does not split at a `'1'` into a registered hrp and a
Bech32 body, because decoding dispatches on that test before Base58Check
(`C2_version_table_counterexample` diverts a valid version-`0x30` payload). -/
theorem C2_version_table (v : Nat) (h : List Nat) (hv : v < 256) (hh : h.length = 20)
    (hb : ∀ x ∈ h, x < 256)
    (hdiv : bech32_network (String.mk (b58EncodeCheck (v :: h))) = none) :
    BtcForkAddress.from_str (String.mk (b58EncodeCheck (v :: h))) =
      (if v = 0x00 then .ok ⟨btcNet, .PubkeyHash h⟩
       else if v = 0x05 then .ok ⟨btcNet, .ScriptHash h⟩
       else if v = 0x30 then .ok ⟨ltcNet, .PubkeyHash h⟩
       else if v = 0x32 then .ok ⟨ltcNet, .ScriptHash h⟩
       else if v = 0x3a then .ok ⟨ltcTestNet, .ScriptHash h⟩
       else if v = 0x6f then .ok ⟨btcTestNet, .PubkeyHash h⟩
       else if v = 0xc4 then .ok ⟨btcTestNet, .ScriptHash h⟩
       else .err (.Base58 (.InvalidVersion [v]))) := by
  rw [from_str_b58EncodeCheck v h hv hh hb hdiv]
  split_ifs <;>
    first
      | rfl
      | exact mkBase58Payload_ok "btc" btcNet _ _ (by decide) hh
      | exact mkBase58Payload_ok "ltc" ltcNet _ _ (by decide) hh
      | exact mkBase58Payload_ok "ltc-testnet" ltcTestNet _ _ (by decide) hh
      | exact mkBase58Payload_ok "btc-testnet" btcTestNet _ _ (by decide) hh

/-- Closed instance of `C2_version_table`: the all-zero 20-byte hash under
version `0x00` decodes to the Bitcoin pubkey-hash row. -/
theorem C2_version_table_witness :
    BtcForkAddress.from_str (String.mk (b58EncodeCheck (0 :: List.replicate 20 0)))
      = .ok ⟨btcNet, .PubkeyHash (List.replicate 20 0)⟩ := by
  have h := C2_version_table 0 (List.replicate 20 0) (by decide) (by decide) (by decide)
    (by decide)
  simpa using h

/-- The table of C2 fails as stated: this valid 21-byte payload with the
registered version byte `0x30` encodes to `LTc1…`, whose text before the last
`'1'` is the registered hrp `ltc` (case-insensitively), so decoding takes the
Bech32 path and returns a Bech32 error instead of the table's row. -/
theorem C2_version_table_counterexample :
    divertingHash.length = 20 ∧ (∀ x ∈ divertingHash, x < 256) ∧
    String.mk (b58EncodeCheck (0x30 :: divertingHash))
      = "LTc1DcHDfW5uJP4AJbVia4pgCYzapatNER" ∧
    BtcForkAddress.from_str (String.mk (b58EncodeCheck (0x30 :: divertingHash)))
      = .err (.Bech32 (.InvalidChar 'b')) :=
  ⟨by decide, by decide, by decide, by decide⟩

/-- Claim C3: registry lookup is case-insensitive, returns exactly the
normative rows for the five required identifiers, returns `none` for every
identifier outside the registered set (such as `dogecoin`), and building an
address for an unregistered identifier fails with `UnsupportedChain`. -/
theorem C3_registry :
    (∀ s t : String, s.data.map lowerCh = t.data.map lowerCh →
       network_from_coin s = network_from_coin t) ∧
    network_from_coin "LTC" = some ltcNet ∧
    network_from_coin "LTC-TESTNET" = some ltcTestNet ∧
    network_from_coin "BTC" = some btcNet ∧
    network_from_coin "BTC-TESTNET" = some btcTestNet ∧
    network_from_coin "BCH" = some bchNet ∧
    (∀ s : String, (lowerStr s).data ∉ registryIds → network_from_coin s = none) ∧
    network_from_coin "dogecoin" = none ∧
    (∀ (bs : List Nat) (pk : PubKey), secpFromSlice bs = some pk →
       BtcForkAddress.from_public_key bs (some "dogecoin") = .err .UnsupportedChain) ∧
    BtcForkAddress.from_public_key testKeyBytes (some "DOGECOIN")
      = .err .UnsupportedChain := by
  refine ⟨?_, by decide, by decide, by decide, by decide, by decide, ?_, by decide, ?_,
    by decide⟩
  · intro s t hmap
    show networkOfChars (s.data.map lowerCh) = networkOfChars (t.data.map lowerCh)
    rw [hmap]
  · intro s hmem
    unfold network_from_coin networkOfChars
    split_ifs with h1 h2 h3 h4 h5
    · exact absurd (by rw [h1]; decide) hmem
    · exact absurd (by rw [h2]; decide) hmem
    · rcases h3 with h | h <;> exact absurd (by rw [h]; decide) hmem
    · exact absurd (by rw [h4]; decide) hmem
    · rcases h5 with h | h <;> exact absurd (by rw [h]; decide) hmem
    · rfl
  · intro bs pk hsec
    unfold BtcForkAddress.from_public_key
    rw [hsec]
    dsimp only
    rw [show network_from_coin "dogecoin" = none from by decide]

/-- Claim C4: the Bech32 payload checks.  An empty data payload is
`EmptyBech32Payload`; a witness version over 16 is `InvalidWitnessVersion`
while any version up to 16 never is; a program length outside `[2, 40]` is
`InvalidWitnessProgramLength` for every version that passed the version
check; and for version 0 a length other than 20 or 32 is
`InvalidSegwitV0ProgramLength`.  The one repair to the claim: the length
check is not reached `regardless of version` — the version check runs first,
so version 17 with an over-long program reports `InvalidWitnessVersion`
(`C4_bech32_payload_checks_counterexample`). -/
theorem C4_bech32_payload_checks :
    (∀ (s : String) (net : BtcForkNetwork) (h2 : List Char),
       bech32_network s = some net → bech32Decode s.data = .ok (h2, []) →
       BtcForkAddress.from_str s = .err .EmptyBech32Payload) ∧
    (∀ (s : String) (net : BtcForkNetwork) (h2 : List Char) (v : Nat)
       (p5 program : List Nat),
       bech32_network s = some net → bech32Decode s.data = .ok (h2, v :: p5) →
       fromBase32 p5 = .ok program →
       ((16 < v → BtcForkAddress.from_str s = .err (.InvalidWitnessVersion v)) ∧
        (∀ w, v ≤ 16 → BtcForkAddress.from_str s ≠ .err (.InvalidWitnessVersion w)) ∧
        (v ≤ 16 → program.length < 2 ∨ 40 < program.length →
          BtcForkAddress.from_str s = .err (.InvalidWitnessProgramLength program.length)) ∧
        (v = 0 → 2 ≤ program.length → program.length ≤ 40 →
          program.length ≠ 20 → program.length ≠ 32 →
          BtcForkAddress.from_str s
            = .err (.InvalidSegwitV0ProgramLength program.length)))) := by
  constructor
  · intro s net h2 hbn hdec
    rw [from_str_some s net hbn]
    unfold bech32DecodeToAddress
    rw [hdec]
    rfl
  · intro s net h2 v p5 program hbn hdec hfb
    rw [from_str_some s net hbn]
    unfold bech32DecodeToAddress
    rw [hdec]
    dsimp only
    rw [if_neg (by simp)]
    rw [hfb]
    dsimp only
    refine ⟨?_, ?_, ?_, ?_⟩
    · intro hv
      rw [if_pos hv]
    · intro w hv
      rw [if_neg (by omega)]
      split_ifs <;> simp
    · intro hv hlen
      rw [if_neg (show ¬ v > 16 by omega)]
      rw [if_pos (show program.length < 2 ∨ program.length > 40 by omega)]
    · intro h0 hl2 hl40 h20 h32
      rw [if_neg (show ¬ v > 16 by omega)]
      rw [if_neg (show ¬ (program.length < 2 ∨ program.length > 40) by omega)]
      rw [if_pos (show v = 0 ∧ program.length ≠ 20 ∧ program.length ≠ 32 from ⟨h0, h20, h32⟩)]

/-- The `regardless of version` part of C4 fails as stated: this well-formed
Bech32 text carries witness version 17 with a 45-byte program, and decoding
reports the version error, not the program-length error. -/
theorem C4_bech32_payload_checks_counterexample :
    bech32_network (String.mk (bech32Encode "bc".data (17 :: List.replicate 72 0)))
      = some btcNet ∧
    fromBase32 (List.replicate 72 0) = .ok (List.replicate 45 0) ∧
    (List.replicate 45 (0 : Nat)).length > 40 ∧
    BtcForkAddress.from_str (String.mk (bech32Encode "bc".data (17 :: List.replicate 72 0)))
      = .err (.InvalidWitnessVersion 17) :=
  ⟨by decide, by decide, by decide, by decide⟩

/-- Claim C5: the Base58Check decode path.  Text over 50 characters is
rejected with `InvalidLength (len * 11 / 15)` up front; a wrong 4-byte
checksum is `InvalidChecksum`; and a checksum-correct payload that is not
exactly 21 bytes is `InvalidLength` of the decoded length. -/
theorem C5_base58_checks :
    (∀ addr : List Char, addr.length > 50 →
       _decode_base58 addr = .error (.Base58 (.InvalidLength (addr.length * 11 / 15)))) ∧
    (∀ (addr : List Char) (d : List Nat), addr.length ≤ 50 →
       b58DecodeRaw addr = .ok d → 4 ≤ d.length →
       d.drop (d.length - 4) ≠ (sha256 (sha256 (d.take (d.length - 4)))).take 4 →
       _decode_base58 addr = .error (.Base58 .InvalidChecksum)) ∧
    (∀ (addr : List Char) (data : List Nat), addr.length ≤ 50 →
       b58FromCheck addr = .ok data → data.length ≠ 21 →
       _decode_base58 addr = .error (.Base58 (.InvalidLength data.length))) := by
  refine ⟨?_, ?_, ?_⟩
  · intro addr hlong
    unfold _decode_base58
    rw [if_pos hlong]
  · intro addr d hlen hraw h4 hck
    have hfc : b58FromCheck addr = .error .InvalidChecksum := by
      unfold b58FromCheck
      rw [hraw]
      dsimp only
      rw [if_neg (by omega), if_neg hck]
    unfold _decode_base58
    rw [if_neg (by omega), hfc]
  · intro addr data hlen hfc h21
    unfold _decode_base58
    rw [if_neg (by omega), hfc]
    dsimp only
    rw [if_pos h21]

/-- Claim C6: both halves of the no-panic claim, settled against the code.
Address decoding (`from_str`) indeed never panics — every bounds check
precedes the indexing it guards — but address validation (`is_valid`) is
`unimplemented!()` in the source and panics on every input string, so the
claim is false of the codebase. -/
theorem C6_no_codec_panic :
    (∀ s : String, BtcForkAddress.from_str s ≠ .panicked) ∧
    (∀ s : String, BtcForkAddress.is_valid s = .panicked) :=
  ⟨from_str_ne_panicked, fun _ => rfl⟩

/-- Claim C7: decoding dispatch is Bech32-first.  When the text before the
last `'1'` is a registered hrp the result is exactly the Bech32 arm and is
never a Base58Check-typed error; every other string is decoded by the
Base58Check arm. -/
theorem C7_dispatch :
    (∀ (s : String) (net : BtcForkNetwork), bech32_network s = some net →
       BtcForkAddress.from_str s = bech32DecodeToAddress s net ∧
       ∀ e, BtcForkAddress.from_str s ≠ .err (.Base58 e)) ∧
    (∀ s : String, bech32_network s = none →
       BtcForkAddress.from_str s = base58DecodeToAddress s) := by
  constructor
  · intro s net hbn
    refine ⟨from_str_some s net hbn, ?_⟩
    intro e
    rw [from_str_some s net hbn]
    unfold bech32DecodeToAddress
    cases hdec : bech32Decode s.data with
    | error e2 => simp
    | ok pr =>
      obtain ⟨h2, payload⟩ := pr
      dsimp only
      by_cases hlen : payload.length = 0
      · rw [if_pos hlen]
        simp
      · rw [if_neg hlen]
        cases payload with
        | nil => simp at hlen
        | cons v p5 =>
          dsimp only
          cases hfb : fromBase32 p5 with
          | error e3 => simp
          | ok program =>
            dsimp only
            split_ifs <;> simp
  · exact from_str_none

/-- Claim C8: the four test-vector addresses of the repository.  The builder
plus encoder produce exactly the four published strings for the test public
key on the `ltc` and `btc` rows, and decoding each string reports the coin
identifier `LTC` or `BTC` respectively. -/
theorem C8_test_vectors :
    network_from_coin "ltc" = some ltcNet ∧
    network_from_coin "btc" = some btcNet ∧
    BtcForkAddress.toText (BtcForkAddress.p2shwpkh testKey ltcNet)
      = "MR5Hu9zXPX3o9QuYNJGft1VMpRP418QDfW" ∧
    BtcForkAddress.toText (BtcForkAddress.p2wpkh testKey ltcNet)
      = "ltc1qum864wd9nwsc0u9ytkctz6wzrw6g7zdn08yddf" ∧
    BtcForkAddress.toText (BtcForkAddress.p2shwpkh testKey btcNet)
      = "3Js9bGaZSQCNLudeGRHL4NExVinc25RbuG" ∧
    BtcForkAddress.toText (BtcForkAddress.p2wpkh testKey btcNet)
      = "bc1qum864wd9nwsc0u9ytkctz6wzrw6g7zdntm7f4e" ∧
    rcoin (BtcForkAddress.from_str "MR5Hu9zXPX3o9QuYNJGft1VMpRP418QDfW") = some "LTC" ∧
    rcoin (BtcForkAddress.from_str "ltc1qum864wd9nwsc0u9ytkctz6wzrw6g7zdn08yddf")
      = some "LTC" ∧
    rcoin (BtcForkAddress.from_str "3Js9bGaZSQCNLudeGRHL4NExVinc25RbuG") = some "BTC" ∧
    rcoin (BtcForkAddress.from_str "bc1qum864wd9nwsc0u9ytkctz6wzrw6g7zdntm7f4e")
      = some "BTC" :=
  ⟨by decide, by decide, by decide, by decide, by decide, by decide, by decide, by decide,
   by decide, by decide⟩

/-- Claim C9: `address_like` parses the reference address and rebuilds an
address of the same payload family for the new key on the decoded reference's
network. -/
theorem C9_address_like (target_addr : String) (pub_key : PubKey) (a : BtcForkAddress)
    (h : BtcForkAddress.from_str target_addr = .ok a) :
    ∃ b, BtcForkAddress.address_like target_addr pub_key = .ok b ∧
      b.network = a.network ∧ b.payload.kind = a.payload.kind := by
  unfold BtcForkAddress.address_like
  rw [h]
  obtain ⟨net, payload⟩ := a
  cases payload with
  | PubkeyHash h2 =>
    refine ⟨BtcForkAddress.p2pkh pub_key net, rfl, rfl, ?_⟩
    show PayloadKind.pubkeyHash = PayloadKind.pubkeyHash
    rfl
  | ScriptHash h2 =>
    refine ⟨BtcForkAddress.p2shwpkh pub_key net, rfl, rfl, ?_⟩
    show PayloadKind.scriptHash = PayloadKind.scriptHash
    rfl
  | WitnessProgram v prog =>
    refine ⟨BtcForkAddress.p2wpkh pub_key net, rfl, rfl, ?_⟩
    show PayloadKind.witnessProgram = PayloadKind.witnessProgram
    rfl

/-- Closed instance of `C9_address_like`: rebuilding from the wrapped-witness
test vector keeps the script-hash family and the Litecoin row. -/
theorem C9_address_like_witness :
    ∃ b, BtcForkAddress.address_like "MR5Hu9zXPX3o9QuYNJGft1VMpRP418QDfW" testKey
        = .ok b ∧
      b.network = (⟨ltcNet,
          .ScriptHash (hash160 (0x00 :: 0x14 :: hash160 testKeyBytes))⟩ :
          BtcForkAddress).network ∧
      b.payload.kind = (⟨ltcNet,
          .ScriptHash (hash160 (0x00 :: 0x14 :: hash160 testKeyBytes))⟩ :
          BtcForkAddress).payload.kind :=
  C9_address_like _ testKey _ (by decide)

/-- Claim C10: the TRON signer.  With no password it fails with the
invalid-password error for every payload, before reading the payload or the
keystore; with a password, a payload whose `raw_data_hex` field is a hex
string and a keystore without a TRON account fail with the
`account_not_found` message; on success the result is the input object with
the hex signature inserted as a one-element array under `signature`, all
other fields unchanged.  The one repair to the claim: the account-absent
failure is not reached for every payload — the signer reads `raw_data_hex`
first and panics when the field is missing or not a string
(`C10_sign_transaction_counterexample`). -/
theorem C10_sign_transaction :
    (∀ (ks : HdKeystore) (tx : Json), sign_transaction ks tx none = .err .InvalidPassword) ∧
    (∀ (ks : HdKeystore) (tx : Json) (pwd hexs : String) (bytes : List Nat),
       jsonIndex tx "raw_data_hex" = .str hexs → hexDecode hexs = some bytes →
       ks.account "TRON" = none →
       sign_transaction ks tx (some pwd) = .err (.Message "account_not_found")) ∧
    (∀ (ks : HdKeystore) (fields : List (String × Json)) (pwd hexs : String)
       (bytes : List Nat) (account : Account) (pair : KPair) (r : List Nat),
       jsonIndex (.obj fields) "raw_data_hex" = .str hexs →
       hexDecode hexs = some bytes →
       ks.account "TRON" = some account →
       ks.get_pair account.derivation_path pwd = .ok pair →
       pair.sign_recoverable (sha256 bytes) = .ok r →
       sign_transaction ks (.obj fields) (some pwd)
         = .ok (.obj (insertField fields "signature" (.arr [.str (hexEncode r)])))) ∧
    (∀ (fields : List (String × Json)) (k : String) (v : Json), k ≠ "signature" →
       jsonIndex (.obj (insertField fields "signature" v)) k
         = jsonIndex (.obj fields) k) := by
  refine ⟨fun ks tx => rfl, ?_, ?_, ?_⟩
  · intro ks tx pwd hexs bytes hidx hdec hacc
    unfold sign_transaction
    dsimp only
    rw [hidx]
    dsimp only
    rw [hdec]
    dsimp only
    rw [hacc]
  · intro ks fields pwd hexs bytes account pair r hidx hdec hacc hpair hsig
    unfold sign_transaction
    dsimp only
    rw [hidx]
    dsimp only
    rw [hdec]
    dsimp only
    rw [hacc]
    dsimp only
    rw [hpair]
    dsimp only
    rw [hsig]
    rfl
  · intro fields k v hk
    show ((insertField fields "signature" v).lookup k).getD .null
      = (fields.lookup k).getD .null
    rw [insertField_lookup_ne fields "signature" k v hk]

/-- The account-absent clause of C10 fails as stated: for a payload without a
`raw_data_hex` string the signer panics on the `unwrap` before it ever looks
up the TRON account, even though the account is indeed absent. -/
theorem C10_sign_transaction_counterexample :
    emptyKeystore.account "TRON" = none ∧
    sign_transaction emptyKeystore (.obj []) (some "password") = .panicked :=
  ⟨rfl, rfl⟩
